import Mathlib

/-!
Verification of the hyperion endpoint-first database core against its
natural-language specification.

The Rust source is shallowly embedded: each Lean definition below is a
direct translation of a named Rust item (module and line references are
given in the doc comments).  Machine integers (`usize`, `i64`) are
modelled as `Nat`/`Int` with explicit bounds where overflow matters,
fallible Rust functions returning `Result` are modelled with `Except`,
and hash maps / sled trees are modelled as association lists whose
canonical iteration order is insertion order (`HashMap` iteration order
in the source is unspecified; every theorem stated below is insensitive
to that order or is about a concrete run where the order is fixed).
IEEE-754 `f64` values are outside the scope of the embedding; the
`Float` variant of the Rust `Value`/`Entity` enums is omitted, and no
claim below exercises it.
-/

namespace Hyperion

/-! ## Path algebra (src/core/path.rs) -/

/-- Model of Rust `str::parse::<usize>`: optional leading `+`, then one
or more ASCII digits, value below `2^64` (usize is 64-bit). -/
def parseUsize (s : String) : Option Nat :=
  let cs := if s.data.head? = some '+' then s.data.tail else s.data
  if cs.isEmpty then none
  else if cs.all (·.isDigit) then
    let n := cs.foldl (fun a c => a * 10 + (c.toNat - 48)) 0
    if n < 2 ^ 64 then some n else none
  else none

/-- Model of `segment_str.strip_prefix('[').and_then(|s| s.strip_suffix(']'))`
(path.rs line 50). -/
def stripBrackets (s : String) : Option String :=
  match s.data with
  | c :: rest =>
    if c = '[' then
      if rest.getLast? = some ']' then some ⟨rest.dropLast⟩ else none
    else none
  | [] => none

/-- `SegmentType` (path.rs lines 21-31).  The Rust `PathSegment` newtype
wrapper around `SegmentType` is elided; `PathSegment` is a synonym. -/
inductive SegmentType where
  | Named (name : String)
  | SingleWildcard
  | MultiWildcard
  | ArrayIndex (idx : Nat)
deriving DecidableEq, Repr

abbrev PathSegment := SegmentType

deriving instance DecidableEq for Except

namespace PathSegment

/-- `PathSegment::new` (path.rs lines 39-58). -/
def new (s : String) : PathSegment :=
  if s = "*" then .SingleWildcard
  else if s = "**" then .MultiWildcard
  else
    match stripBrackets s with
    | some inner =>
      match parseUsize inner with
      | some idx => .ArrayIndex idx
      | none => .Named s
    | none => .Named s

/-- Decimal digit list of a natural number; fuel-indexed so that the
definition is structurally recursive (fuel `n+1` always suffices). -/
def natDigitsAux : Nat → Nat → List Char
  | 0, _ => []
  | fuel + 1, n =>
    if n < 10 then [Nat.digitChar n]
    else natDigitsAux fuel (n / 10) ++ [Nat.digitChar (n % 10)]

/-- Decimal rendering of a `usize`, as Rust `format!("{}", idx)`. -/
def natToStr (n : Nat) : String := ⟨natDigitsAux (n + 1) n⟩

/-- `PathSegment::as_str` (path.rs lines 61-68). -/
def asStr : PathSegment → String
  | .Named name => name
  | .SingleWildcard => "*"
  | .MultiWildcard => "**"
  | .ArrayIndex idx => "[" ++ natToStr idx ++ "]"

/-- `PathSegment::is_single_wildcard` (path.rs lines 71-73). -/
def isSingleWildcard : PathSegment → Bool
  | .SingleWildcard => true
  | _ => false

/-- `PathSegment::is_multi_wildcard` (path.rs lines 76-78). -/
def isMultiWildcard : PathSegment → Bool
  | .MultiWildcard => true
  | _ => false

/-- `PathSegment::is_wildcard` (path.rs lines 81-83). -/
def isWildcard (s : PathSegment) : Bool :=
  s.isSingleWildcard || s.isMultiWildcard

/-- `PathSegment::matches` (path.rs lines 100-124); `self` is the
pattern segment, `other` the candidate segment. -/
def smatches (self other : PathSegment) : Bool :=
  match self with
  | .SingleWildcard => true
  | .MultiWildcard => true
  | .Named name =>
    match other with
    | .Named otherName => name = otherName
    | _ => false
  | .ArrayIndex idx =>
    match other with
    | .ArrayIndex otherIdx => idx = otherIdx
    | _ => false

end PathSegment

/-- `Path` (path.rs lines 128-131). -/
structure Path where
  segments : List PathSegment
deriving DecidableEq, Repr

/-- `PathError` (path.rs lines 13-18). -/
inductive PathError where
  | InvalidFormat (msg : String)
  | EmptyPath
deriving DecidableEq, Repr

namespace Path

/-- `Path::len` (path.rs lines 150-152). -/
def len (p : Path) : Nat := p.segments.length

/-- `Path::is_empty` (path.rs lines 155-157). -/
def isEmptyP (p : Path) : Bool := p.segments.isEmpty

/-- `Path::has_wildcards` (path.rs lines 170-172). -/
def hasWildcards (p : Path) : Bool := p.segments.any (·.isWildcard)

/-- `Path::starts_with` (path.rs lines 175-187): the prefix may not be
longer than the path, and every prefix segment must `matches` the
corresponding path segment. -/
def startsWith (self pre : Path) : Bool :=
  if pre.segments.length > self.segments.length then false
  else (pre.segments.zip self.segments).all fun s => s.1.smatches s.2

/-- Recursion core of `Path::matches` (path.rs lines 190-236).  The
source recurses on a strictly shorter pattern (`pattern[i+1..]` for `i`
the index of the first multi-wildcard); the `fuel` argument makes that
recursion structural, and `fuel = pattern.length` can never run out
because every recursive call removes at least one pattern segment.
The three cases mirror the source exactly: an empty pattern matches
only an empty path; if the pattern contains a multi-wildcard at first
index `i`, the match succeeds when it is the final pattern segment, and
otherwise when the pattern tail `pattern[i+1..]` matches some suffix
`self[j..]` for `j ∈ [i, self.len]`; a pattern without multi-wildcards
must have the path's length and match pointwise.  Note that the source
never compares pattern segments *before* the first multi-wildcard with
the path. -/
def matchesAux : Nat → List PathSegment → List PathSegment → Bool
  | _, q, [] => q.isEmpty
  | fuel, q, x :: xs =>
    match (x :: xs).findIdx? (·.isMultiWildcard) with
    | some i =>
      if i = (x :: xs).length - 1 then true
      else
        match fuel with
        | 0 => false
        | fuel + 1 =>
          (List.range (q.length + 1 - i)).any fun k =>
            matchesAux fuel (q.drop (i + k)) ((x :: xs).drop (i + 1))
    | none =>
      decide ((x :: xs).length = q.length) &&
        ((x :: xs).zip q).all fun s => s.1.smatches s.2

/-- `Path::matches` (path.rs lines 190-236). -/
def pmatches (self pattern : Path) : Bool :=
  matchesAux pattern.segments.length self.segments pattern.segments

end Path

/-- Splitter core for Rust `s.split('.')`: splits at every `'.'`,
yielding one (possibly empty) piece per separator-delimited run. -/
def splitDotAux : List Char → List Char → List String
  | [], acc => [⟨acc.reverse⟩]
  | c :: rest, acc =>
    if c = '.' then ⟨acc.reverse⟩ :: splitDotAux rest []
    else splitDotAux rest (c :: acc)

/-- Rust `s.split('.')` as used by `Path::from_str`. -/
def splitOnDot (s : String) : List String := splitDotAux s.data []

/-- Joins strings with a separator, as Rust `Vec::join`. -/
def joinSep (sep : String) : List String → String
  | [] => ""
  | [x] => x
  | x :: xs => x ++ sep ++ joinSep sep xs

namespace Path

/-- `impl FromStr for Path` (path.rs lines 240-255): empty input is
rejected, otherwise the input is split on `'.'` and each piece goes
through `PathSegment::new` with no further validation. -/
def fromStr (s : String) : Except PathError Path :=
  if s = "" then .error .EmptyPath
  else .ok ⟨(splitOnDot s).map PathSegment.new⟩

/-- `impl Display for Path` (path.rs lines 258-268). -/
def toStr (p : Path) : String := joinSep "." (p.segments.map PathSegment.asStr)

end Path

/-- Follows the spec's recursive case split for `matches` (§4.1), for
comparison with the source-translated `Path.matches`: an empty pattern
matches only an empty path; a leading multi-wildcard that is the final
pattern segment matches any remaining path, and otherwise the pattern
tail must match some suffix of the remaining path; any other leading
pattern segment must match the leading path segment, with the tails
matching recursively (so pattern segments before a multi-wildcard are
compared with the corresponding leading path segments, and a pattern
without multi-wildcards matches exactly the equal-length pointwise
matching paths). -/
def specMatches : List PathSegment → List PathSegment → Bool
  | q, [] => q.isEmpty
  | q, p :: ps =>
    if p.isMultiWildcard then
      if ps.isEmpty then true
      else (List.range (q.length + 1)).any fun j => specMatches (q.drop j) ps
    else
      match q with
      | [] => false
      | s :: qs => p.smatches s && specMatches qs ps

section PathChecks

example : Path.fromStr "users.u-123456.profile.bio" =
    .ok ⟨[.Named "users", .Named "u-123456", .Named "profile", .Named "bio"]⟩ := by
  decide

example : Path.fromStr "users.**.bio" =
    .ok ⟨[.Named "users", .MultiWildcard, .Named "bio"]⟩ := by decide

example : Path.fromStr "[3]" = .ok ⟨[.ArrayIndex 3]⟩ := by decide

example :
    Path.pmatches ⟨[.Named "users", .Named "u", .Named "profile", .Named "bio"]⟩
      ⟨[.Named "users", .MultiWildcard, .Named "bio"]⟩ = true := by decide

example :
    Path.pmatches ⟨[.Named "users", .Named "u", .Named "profile"]⟩
      ⟨[.Named "users", .MultiWildcard, .Named "bio"]⟩ = false := by decide

example :
    Path.pmatches ⟨[.Named "posts", .Named "p1", .Named "bio"]⟩
      ⟨[.Named "users", .MultiWildcard, .Named "bio"]⟩ = true := by decide

example :
    specMatches [.Named "posts", .Named "p1", .Named "bio"]
      [.Named "users", .MultiWildcard, .Named "bio"] = false := by decide

end PathChecks

/-! ## Value model (src/value.rs) and errors (src/core/errors.rs) -/

/-- `Value` (value.rs lines 11-26).  The `Float(f64)` variant is
omitted from the embedding (IEEE-754 floats are out of scope; no claim
below involves a float). -/
inductive Value where
  | Null
  | Boolean (b : Bool)
  | Integer (i : Int)
  | Str (s : String)
  | Binary (data : List Nat) (mime : Option String)
  | Reference (p : Path)
deriving DecidableEq, Repr

/-- `StoreError` (core/errors.rs lines 11-29). -/
inductive StoreError where
  | PathErr (e : PathError)
  | NotFound (p : Path)
  | InvalidOperation (msg : String)
  | Internal (msg : String)
  | SerializationError (msg : String)
  | DeserializationError (msg : String)
deriving DecidableEq, Repr

/-! ## Association lists: the model of `HashMap`/`BTreeMap` and sled
trees.  Insertion replaces the value of an existing key in place and
otherwise appends; iteration order of the model is insertion order. -/

/-- Insert or replace a binding. -/
def alInsert {κ α : Type} [DecidableEq κ] : List (κ × α) → κ → α → List (κ × α)
  | [], k, a => [(k, a)]
  | (k', b) :: rest, k, a =>
    if k = k' then (k, a) :: rest else (k', b) :: alInsert rest k a

/-- Look a key up. -/
def alFind {κ α : Type} [DecidableEq κ] : List (κ × α) → κ → Option α
  | [], _ => none
  | (k', b) :: rest, k => if k = k' then some b else alFind rest k

/-- Remove a binding (no-op when the key is absent). -/
def alErase {κ α : Type} [DecidableEq κ] : List (κ × α) → κ → List (κ × α)
  | [], _ => []
  | (k', b) :: rest, k => if k = k' then rest else (k', b) :: alErase rest k

/-! ## Primary in-memory store (src/storage/memory.rs) -/

/-- `MemoryStore` (memory.rs lines 14-18): a map from paths to values,
modelled as an association list. -/
structure MemoryStore where
  data : List (Path × Value)
deriving DecidableEq, Repr

namespace MemoryStore

/-- `MemoryStore::new` (memory.rs lines 20-27). -/
def new : MemoryStore := ⟨[]⟩

/-- `MemoryStore::set` (memory.rs lines 30-37): rejects the empty path,
otherwise upserts.  The Rust method mutates `self` and returns
`Result<()>`; the model returns the updated store, and an error means
the store is unchanged. -/
def set (s : MemoryStore) (path : Path) (value : Value) : Except StoreError MemoryStore :=
  if path.isEmptyP then
    .error (.InvalidOperation "Cannot set value at empty path")
  else .ok ⟨alInsert s.data path value⟩

/-- `MemoryStore::get` (memory.rs lines 39-47). -/
def get (s : MemoryStore) (path : Path) : Except StoreError Value :=
  if path.isEmptyP then
    .error (.InvalidOperation "Cannot get value at empty path")
  else
    match alFind s.data path with
    | some v => .ok v
    | none => .error (.NotFound path)

/-- `MemoryStore::delete` (memory.rs lines 49-59): rejects the empty
path, fails with `NotFound` when the path is absent (leaving the data
untouched), otherwise removes the binding. -/
def delete (s : MemoryStore) (path : Path) : Except StoreError MemoryStore :=
  if path.isEmptyP then
    .error (.InvalidOperation "Cannot delete value at empty path")
  else
    match alFind s.data path with
    | some _ => .ok ⟨alErase s.data path⟩
    | none => .error (.NotFound path)

/-- `MemoryStore::exists` (memory.rs lines 61-67). -/
def existsP (s : MemoryStore) (path : Path) : Except StoreError Bool :=
  if path.isEmptyP then
    .error (.InvalidOperation "Cannot check empty path")
  else .ok (alFind s.data path).isSome

/-- `MemoryStore::list_prefix` (memory.rs lines 69-76). -/
def listPre (s : MemoryStore) (pre : Path) : List Path :=
  (s.data.filter fun e => e.1.startsWith pre).map (·.1)

/-- `MemoryStore::get_prefix` (memory.rs lines 78-85). -/
def getPre (s : MemoryStore) (pre : Path) : List (Path × Value) :=
  s.data.filter fun e => e.1.startsWith pre

end MemoryStore

/-! ## Entity reconstruction (src/core/entity.rs, identical to
src/persistent_entity.rs up to the store type) -/

/-- `Entity` (entity.rs lines 15-34), `Float` omitted as for `Value`;
the `Object` map is an association list in insertion order. -/
inductive Entity where
  | Null
  | Boolean (b : Bool)
  | Integer (i : Int)
  | Str (s : String)
  | Binary (data : List Nat) (mime : Option String)
  | Reference (p : Path)
  | Object (fields : List (String × Entity))
  | Array (items : List Entity)

/-- Check for the `Null` variant (`if let Entity::Null = ...`). -/
def Entity.isNull : Entity → Bool
  | .Null => true
  | _ => false

/-- `impl From<Value> for Entity` (entity.rs lines 36-48). -/
def Entity.fromValue : Value → Entity
  | .Null => .Null
  | .Boolean b => .Boolean b
  | .Integer i => .Integer i
  | .Str s => .Str s
  | .Binary d m => .Binary d m
  | .Reference p => .Reference p

/-- Extends a list with `Entity.Null` placeholders so that `index` is a
valid position (`while items.len() <= index { items.push(Null) }`,
entity.rs lines 148-150). -/
def padToIndex (items : List Entity) (index : Nat) : List Entity :=
  items ++ List.replicate (index + 1 - items.length) .Null

/-- `insert_into_entity` (entity.rs lines 122-203).  A leading
`[k]`-shaped segment goes through the *array branch*: the array slot is
the entry at key `""` of the current object map (created as an empty
array when absent), padded with nulls up to `k`; on the last segment
the value lands at position `k`, otherwise a `Null` item is upgraded to
an empty object and insertion recurses into it.  A leading non-bracket
segment inserts at its own key: directly on the last segment, and
otherwise through a nested object (created when absent) with an
`InvalidOperation` error on a non-object occupant. -/
def insertIntoEntity (entity : List (String × Entity)) (segments : List String)
    (value : Value) : Except StoreError (List (String × Entity)) :=
  match segments with
  | [] => .error (.InvalidOperation "Empty segments")
  | segment :: rest =>
    match stripBrackets segment with
    | some indexStr =>
      match parseUsize indexStr with
      | none => .error (.InvalidOperation ("Invalid array index: " ++ indexStr))
      | some index =>
        match (alFind entity "").getD (.Array []) with
        | .Array items =>
          let items := padToIndex items index
          if rest.isEmpty then
            .ok (alInsert entity "" (.Array (items.set index (.fromValue value))))
          else
            let item := items.getD index .Null
            let item := if item.isNull then .Object [] else item
            match item with
            | .Object obj => do
              let obj ← insertIntoEntity obj rest value
              .ok (alInsert entity "" (.Array (items.set index (.Object obj))))
            | _ =>
              .error (.InvalidOperation
                ("Cannot insert at path: expected object, found " ++ segment))
        | _ =>
          .error (.InvalidOperation
            ("Cannot insert at path: expected array, found " ++ segment))
    | none =>
      if rest.isEmpty then
        .ok (alInsert entity segment (.fromValue value))
      else
        match (alFind entity segment).getD (.Object []) with
        | .Object obj => do
          let obj ← insertIntoEntity obj rest value
          .ok (alInsert entity segment (.Object obj))
        | _ =>
          .error (.InvalidOperation
            ("Cannot insert at path: expected object, found " ++ segment))

/-- `get_remaining_segments` (entity.rs lines 206-214). -/
def getRemainingSegments (path pre : Path) : List String :=
  (path.segments.drop pre.segments.length).map PathSegment.asStr

/-- Endpoint-list core of `reconstruct_entity` (entity.rs lines
217-253), shared by the `MemoryStore` and `PersistentStore` versions:
`endpoints` is the result of the store's `get_prefix`. -/
def reconstructFromEndpoints (endpoints : List (Path × Value)) (pre : Path) :
    Except StoreError Entity :=
  let fold : Except StoreError Entity := do
    let step := fun (acc : Except StoreError (List (String × Entity)))
        (e : Path × Value) => do
      let result ← acc
      if e.1.startsWith pre then
        insertIntoEntity result (getRemainingSegments e.1 pre) e.2
      else .ok result
    let result ← endpoints.foldl step (.ok [])
    .ok (.Object result)
  match endpoints with
  | [] => .error (.NotFound pre)
  | (path, value) :: rest =>
    if rest.isEmpty && path = pre then .ok (.fromValue value)
    else fold

/-- `reconstruct_entity` over the in-memory store (entity.rs lines
217-253). -/
def reconstructEntity (s : MemoryStore) (pre : Path) : Except StoreError Entity :=
  reconstructFromEndpoints (s.getPre pre) pre

section EntityChecks

example :
    insertIntoEntity [] ["name"] (.Str "alice") =
      .ok [("name", .Str "alice")] := by rfl

end EntityChecks

/-! ## Prefix index (src/core/index/prefix_index.rs)

The index lives in a sled tree; sled keys are byte strings ordered
bytewise, so keys are modelled as `List Nat` of UTF-8 bytes.  Values
are `bincode`-serialized paths, modelled as the paths themselves (the
codec round-trip is idealized as exact). -/

/-- UTF-8 encoding of one scalar value (standard 1-4 byte encoding). -/
def utf8Bytes (c : Char) : List Nat :=
  let n := c.toNat
  if n < 0x80 then [n]
  else if n < 0x800 then [0xC0 + n / 64, 0x80 + n % 64]
  else if n < 0x10000 then
    [0xE0 + n / 4096, 0x80 + n / 64 % 64, 0x80 + n % 64]
  else
    [0xF0 + n / 262144, 0x80 + n / 4096 % 64, 0x80 + n / 64 % 64, 0x80 + n % 64]

/-- Byte sequence of a string (`str::as_bytes`). -/
def strBytes (s : String) : List Nat := (s.data.map utf8Bytes).flatten

/-- Strict bytewise lexicographic order on byte strings, the order of
sled keys. -/
def bytesLt : List Nat → List Nat → Bool
  | [], [] => false
  | [], _ :: _ => true
  | _ :: _, [] => false
  | a :: as, b :: bs =>
    if a < b then true else if b < a then false else bytesLt as bs

namespace PrefixIndex

/-- `PrefixIndex::create_index_key` (prefix_index.rs lines 35-49):
segment strings joined with `':'`, taken as bytes. -/
def createIndexKey (path : Path) : List Nat :=
  strBytes (joinSep ":" (path.segments.map PathSegment.asStr))

/-- The sled tree of the prefix index: key bytes mapped to the
serialized path. -/
abbrev Tree := List (List Nat × Path)

/-- `PrefixIndex::add_path` (prefix_index.rs lines 53-77). -/
def addPath (tree : Tree) (path : Path) : Tree :=
  alInsert tree (createIndexKey path) path

/-- `PrefixIndex::remove_path` (prefix_index.rs lines 80-92). -/
def removePath (tree : Tree) (path : Path) : Tree :=
  alErase tree (createIndexKey path)

/-- `PrefixIndex::find_by_prefix` (prefix_index.rs lines 94-137): an
inclusive-start/exclusive-end range scan from `key(prefix)` to
`key(prefix) ++ [b':', 0xFF]`, followed by an exact-match probe that
appends the entry at `key(prefix)` when the scan missed it.  The model
iterates the tree in insertion order where sled iterates in key order;
every theorem below only uses which paths are returned. -/
def findByPre (tree : Tree) (pre : Path) : List Path :=
  let startKey := createIndexKey pre
  let endKey := startKey ++ [58, 255]
  let ranged := (tree.filter fun e =>
    !bytesLt e.1 startKey && bytesLt e.1 endKey).map (·.2)
  match alFind tree startKey with
  | some path => if path ∈ ranged then ranged else ranged ++ [path]
  | none => ranged

/-- `PrefixIndex::find_by_pattern` (prefix_index.rs lines 140-157). -/
def findByPattern (tree : Tree) (pattern : Path) : List Path :=
  if !pattern.hasWildcards then findByPre tree pattern
  else (findByPre tree ⟨[]⟩).filter (·.pmatches pattern)

/-- Index contents after adding a list of paths in order. -/
def ofPaths (paths : List Path) : Tree := paths.foldl addPath []

end PrefixIndex

/-! ## Core wildcard index (src/core/index/wildcard_index.rs)

Both sled trees hold textual keys.  The single-level tree stores a
serialized `HashSet<Path>` per structural-pattern key, the multi-level
tree stores one serialized `Path` per suffix key (each insert
*overwrites* the previous path for that suffix).  Keys are modelled as
`String` (only equality and prefix tests are used, and every input in
the theorems below is ASCII, where character and byte prefixes agree).
Path sets are association-order lists without duplicates.

Serialization is idealized as exact where the stored and read types
agree.  Two places in the source read single-tree values (serialized
path *sets*) back as single `Path`s — the `debug_dump_single_tree`
call at the top of `find_by_pattern`, the full scan of the single tree
in its `*`-branch, and `find_by_prefix` — which in reality fails or
produces garbage for those values.  The model idealizes these reads as
enumerating the paths of the stored sets; this only makes the index
better-behaved than the source, so every counterexample proved below
holds for the source a fortiori. -/

/-- Byte-prefix test on textual keys (`sled::Tree::scan_prefix`),
modelled on the character lists (identical to the byte order for the
ASCII keys in every theorem below). -/
def strIsPrefixOf (a b : String) : Bool := a.data.isPrefixOf b.data

/-- Insert into a path set (`HashSet::insert`). -/
def pathSetInsert (paths : List Path) (p : Path) : List Path :=
  if p ∈ paths then paths else paths ++ [p]

/-- `WildcardIndex` (core wildcard_index.rs lines 12-19): the two
trees. -/
structure CoreWildcardIndex where
  single : List (String × List Path)
  multi : List (String × Path)
deriving DecidableEq, Repr

namespace CoreWildcardIndex

/-- `WildcardIndex::create_structural_pattern` (core wildcard_index.rs
lines 44-65): `"len=N"` followed by `"i=<segment>"` per position, with
`*` / `**` for wildcard positions, joined by `':'`. -/
def createStructuralPattern (path : Path) : String :=
  let parts := ("len=" ++ PathSegment.natToStr path.segments.length) ::
    path.segments.enum.map fun e =>
      let rendered :=
        if !e.2.isSingleWildcard && !e.2.isMultiWildcard then e.2.asStr
        else if e.2.isSingleWildcard then "*"
        else "**"
      PathSegment.natToStr e.1 ++ "=" ++ rendered
  joinSep ":" parts

/-- `WildcardIndex::create_suffix_key` (core wildcard_index.rs lines
68-73). -/
def createSuffixKey (segments : List String) : String := joinSep ":" segments

/-- One step of `index_for_single_wildcards` (core wildcard_index.rs
lines 76-119): the path with position `wildcardPos` replaced by `*`. -/
def singlePatternAt (path : Path) (wildcardPos : Nat) : Path :=
  ⟨path.segments.enum.map fun e =>
    if e.1 = wildcardPos then .SingleWildcard else e.2⟩

/-- `WildcardIndex::index_for_single_wildcards` (core wildcard_index.rs
lines 76-119): for every position, add the path to the set stored under
the structural key of the path with that position wildcarded. -/
def indexForSingleWildcards (tree : List (String × List Path)) (path : Path) :
    List (String × List Path) :=
  (List.range path.segments.length).foldl
    (fun t wildcardPos =>
      let patternKey := createStructuralPattern (singlePatternAt path wildcardPos)
      alInsert t patternKey (pathSetInsert ((alFind t patternKey).getD []) path))
    tree

/-- `WildcardIndex::index_for_multi_wildcards` (core wildcard_index.rs
lines 123-148): for every suffix start, store the path under the suffix
key, *overwriting* any previous entry for that key. -/
def indexForMultiWildcards (tree : List (String × Path)) (path : Path) :
    List (String × Path) :=
  let segments := path.segments.map PathSegment.asStr
  (List.range segments.length).foldl
    (fun t startPos => alInsert t (createSuffixKey (segments.drop startPos)) path)
    tree

/-- `WildcardIndex::add_path` (core wildcard_index.rs lines 174-190). -/
def addPath (idx : CoreWildcardIndex) (path : Path) : CoreWildcardIndex :=
  { single := indexForSingleWildcards idx.single path,
    multi := indexForMultiWildcards idx.multi path }

/-- `WildcardIndex::remove_path` (core wildcard_index.rs lines
192-244): for every single-wildcard position the *whole entry* at the
structural key is removed (not just this path from its set), and every
suffix-key entry is removed. -/
def removePath (idx : CoreWildcardIndex) (path : Path) : CoreWildcardIndex :=
  let single := (List.range path.segments.length).foldl
    (fun t wildcardPos =>
      alErase t (createStructuralPattern (singlePatternAt path wildcardPos)))
    idx.single
  let segments := path.segments.map PathSegment.asStr
  let multi := (List.range segments.length).foldl
    (fun t startPos => alErase t (createSuffixKey (segments.drop startPos)))
    idx.multi
  { single := single, multi := multi }

/-- All paths stored in the single tree (the idealized reading of the
source scans that deserialize single-tree values as paths). -/
def singleTreePaths (idx : CoreWildcardIndex) : List Path :=
  (idx.single.map (·.2)).flatten

/-- `WildcardIndex::find_by_prefix` (core wildcard_index.rs lines
246-268): scan the single tree and keep the paths starting with the
prefix (value reads idealized, see the section comment). -/
def findByPre (idx : CoreWildcardIndex) (pre : Path) : List Path :=
  ((singleTreePaths idx).filter (·.startsWith pre)).dedup

/-- `WildcardIndex::find_by_pattern` (core wildcard_index.rs lines
270-393).  For a pattern with a `*`: the set stored under the pattern's
structural key, plus a full scan of the single tree filtered by
`matches`.  For a pattern with a `**` at first position `pos`: when the
suffix `pattern[pos+1..]` is non-empty, the entry stored under the
suffix key (if it matches) plus a prefix scan over suffix keys filtered
by `matches`; when the suffix is empty, a full scan of the single tree
filtered by `matches`.  For a wildcard-free pattern: `find_by_prefix`.
The result set is returned without duplicates (`HashSet`). -/
def findByPattern (idx : CoreWildcardIndex) (pattern : Path) : List Path :=
  let r1 :=
    if pattern.segments.any (·.isSingleWildcard) then
      let patternKey := createStructuralPattern pattern
      let exact := (alFind idx.single patternKey).getD []
      let scanned := (singleTreePaths idx).filter (·.pmatches pattern)
      exact ++ scanned
    else []
  let r2 :=
    if pattern.segments.any (·.isMultiWildcard) then
      match pattern.segments.findIdx? (·.isMultiWildcard) with
      | none => []
      | some pos =>
        let suffix := (pattern.segments.drop (pos + 1)).map PathSegment.asStr
        if !suffix.isEmpty then
          let suffixKey := createSuffixKey suffix
          let exact := match alFind idx.multi suffixKey with
            | some path => if path.pmatches pattern then [path] else []
            | none => []
          let scanned := ((idx.multi.filter fun e =>
            strIsPrefixOf suffixKey e.1).map (·.2)).filter (·.pmatches pattern)
          exact ++ scanned
        else (singleTreePaths idx).filter (·.pmatches pattern)
    else []
  let r3 :=
    if !pattern.segments.any (·.isWildcard) then findByPre idx pattern
    else []
  (r1 ++ r2 ++ r3).dedup

/-- Index contents after adding a list of paths in order. -/
def ofPaths (paths : List Path) : CoreWildcardIndex :=
  paths.foldl addPath ⟨[], []⟩

end CoreWildcardIndex

/-! ## Top-level wildcard index (src/wildcard_index.rs)

This is the variant used by `src/persistent_store.rs` and hence by the
query evaluator.  Unlike the core variant, both trees store serialized
`HashSet<Path>` values.  Single-tree keys are `bincode`-serialized
`StructuralPattern` structs, modelled as the pair
`(segment_count, fixed_segments)` itself; multi-tree keys are
serialized `Vec<String>` suffixes, modelled as the string lists.  The
in-memory `pattern_cache` is invisible in results (it is cleared on
every mutation and only memoizes `find_matches`), so it is not
modelled. -/

/-- `StructuralPattern` (wildcard_index.rs lines 27-32): segment count
plus the position-indexed fixed segments (a `BTreeMap`, here the list
of pairs in increasing position order as produced below). -/
abbrev StructKey := Nat × List (Nat × String)

/-- `WildcardIndex` (wildcard_index.rs lines 15-23). -/
structure TLWildcardIndex where
  single : List (StructKey × List Path)
  multi : List (List String × List Path)
deriving DecidableEq, Repr

namespace TLWildcardIndex

/-- Structural key of a path with one position wildcarded
(`index_for_single_wildcards`, wildcard_index.rs lines 139-151). -/
def structKeyExcept (path : Path) (wildcardPos : Nat) : StructKey :=
  (path.segments.length,
    path.segments.enum.filterMap fun e =>
      if e.1 ≠ wildcardPos then some (e.1, e.2.asStr) else none)

/-- Structural key of a query pattern: every non-`*` segment is fixed
(`find_single_wildcard_matches`, wildcard_index.rs lines 339-350). -/
def structKeyOfPattern (pattern : Path) : StructKey :=
  (pattern.segments.length,
    pattern.segments.enum.filterMap fun e =>
      if !e.2.isSingleWildcard then some (e.1, e.2.asStr) else none)

/-- `WildcardIndex::index_for_single_wildcards` (wildcard_index.rs
lines 134-178). -/
def indexForSingle (tree : List (StructKey × List Path)) (path : Path) :
    List (StructKey × List Path) :=
  (List.range path.segments.length).foldl
    (fun t wildcardPos =>
      let key := structKeyExcept path wildcardPos
      alInsert t key (pathSetInsert ((alFind t key).getD []) path))
    tree

/-- `WildcardIndex::index_for_multi_wildcards` (wildcard_index.rs lines
181-216). -/
def indexForMulti (tree : List (List String × List Path)) (path : Path) :
    List (List String × List Path) :=
  let segments := path.segments.map PathSegment.asStr
  (List.range segments.length).foldl
    (fun t startPos =>
      let key := segments.drop startPos
      alInsert t key (pathSetInsert ((alFind t key).getD []) path))
    tree

/-- `WildcardIndex::add_path` (wildcard_index.rs lines 51-63). -/
def addPath (idx : TLWildcardIndex) (path : Path) : TLWildcardIndex :=
  { single := indexForSingle idx.single path,
    multi := indexForMulti idx.multi path }

/-- Removal from one path-set entry, dropping the entry when its set
empties (`remove_from_single_wildcards` / `remove_from_multi_wildcards`,
wildcard_index.rs lines 219-309). -/
def removeFromEntry {κ : Type} [DecidableEq κ]
    (tree : List (κ × List Path)) (key : κ) (path : Path) :
    List (κ × List Path) :=
  match alFind tree key with
  | none => tree
  | some paths =>
    let paths := paths.filter (· ≠ path)
    if paths.isEmpty then alErase tree key else alInsert tree key paths

/-- `WildcardIndex::remove_path` (wildcard_index.rs lines 66-78). -/
def removePath (idx : TLWildcardIndex) (path : Path) : TLWildcardIndex :=
  let single := (List.range path.segments.length).foldl
    (fun t wildcardPos => removeFromEntry t (structKeyExcept path wildcardPos) path)
    idx.single
  let segments := path.segments.map PathSegment.asStr
  let multi := (List.range segments.length).foldl
    (fun t startPos => removeFromEntry t (segments.drop startPos) path)
    idx.multi
  { single := single, multi := multi }

/-- `WildcardIndex::find_matches` (wildcard_index.rs lines 81-117 with
the helpers at lines 322-443): union of the single-tree posting set at
the pattern's structural key (when the pattern has a `*`), the
`matches`-filtered candidates from the multi tree (when it has a `**`;
the stored set under the suffix key when the suffix after the first
`**` is non-empty, otherwise a full scan), and — when the pattern has
no wildcard at all — the pattern itself (inserted unconditionally,
lines 105-108). -/
def findMatches (idx : TLWildcardIndex) (pattern : Path) : List Path :=
  let r1 :=
    if pattern.segments.any (·.isSingleWildcard) then
      (alFind idx.single (structKeyOfPattern pattern)).getD []
    else []
  let r2 :=
    if pattern.segments.any (·.isMultiWildcard) then
      match pattern.segments.findIdx? (·.isMultiWildcard) with
      | none => []
      | some pos =>
        let suffix := (pattern.segments.drop (pos + 1)).map PathSegment.asStr
        if !suffix.isEmpty then
          ((alFind idx.multi suffix).getD []).filter (·.pmatches pattern)
        else ((idx.multi.map (·.2)).flatten).filter (·.pmatches pattern)
    else []
  let r3 :=
    if !pattern.segments.any (·.isSingleWildcard) &&
        !pattern.segments.any (·.isMultiWildcard) then [pattern]
    else []
  (r1 ++ r2 ++ r3).dedup

end TLWildcardIndex

/-! ## Top-level persistent store (src/persistent_store.rs)

The sled default tree maps `bincode`-serialized paths to serialized
values; the codec round-trip is idealized as exact, so the tree is an
association list from `Path` to `Value` in insertion order (sled's
actual iteration order is the byte order of the serialized keys; every
theorem below is either insensitive to that order or about a concrete
run).  The index batchers are modelled as already flushed: a `set` or
`delete` immediately updates the wildcard index (the spec's quiescent
"flush and drain" state). -/

structure PStore where
  db : List (Path × Value)
  widx : TLWildcardIndex
deriving DecidableEq, Repr

namespace PStore

/-- The store with no data (`open` on a fresh directory). -/
def empty : PStore := ⟨[], ⟨[], []⟩⟩

/-- `PersistentStore::set` (persistent_store.rs lines 107-133). -/
def set (s : PStore) (path : Path) (value : Value) : Except StoreError PStore :=
  if path.isEmptyP then
    .error (.InvalidOperation "Cannot set value at empty path")
  else .ok ⟨alInsert s.db path value, s.widx.addPath path⟩

/-- `PersistentStore::get` (persistent_store.rs lines 136-155). -/
def get (s : PStore) (path : Path) : Except StoreError Value :=
  if path.isEmptyP then
    .error (.InvalidOperation "Cannot get value at empty path")
  else
    match alFind s.db path with
    | some v => .ok v
    | none => .error (.NotFound path)

/-- `PersistentStore::delete` (persistent_store.rs lines 158-185). -/
def delete (s : PStore) (path : Path) : Except StoreError PStore :=
  if path.isEmptyP then
    .error (.InvalidOperation "Cannot delete value at empty path")
  else
    match alFind s.db path with
    | some _ => .ok ⟨alErase s.db path, s.widx.removePath path⟩
    | none => .error (.NotFound path)

/-- `PersistentStore::exists` (persistent_store.rs lines 188-202). -/
def existsP (s : PStore) (path : Path) : Except StoreError Bool :=
  if path.isEmptyP then
    .error (.InvalidOperation "Cannot check empty path")
  else .ok (alFind s.db path).isSome

/-- `PersistentStore::get_prefix` (persistent_store.rs lines 212-235):
a direct scan of the default tree. -/
def getPre (s : PStore) (pre : Path) : List (Path × Value) :=
  s.db.filter fun e => e.1.startsWith pre

/-- `PersistentStore::query` (persistent_store.rs lines 238-263): a
wildcard-free pattern is a plain `get`; otherwise the wildcard index
supplies candidates whose values are fetched with `get` (hits without a
stored value are dropped). -/
def query (s : PStore) (pattern : Path) : List (Path × Value) :=
  if !pattern.hasWildcards then
    match s.get pattern with
    | .ok v => [(pattern, v)]
    | .error _ => []
  else
    (s.widx.findMatches pattern).filterMap fun path =>
      match s.get path with
      | .ok v => some (path, v)
      | .error _ => none

end PStore

/-- `reconstruct_entity` over the top-level persistent store
(src/persistent_entity.rs lines 109-144; its `insert_into_entity` and
`get_remaining_segments` are verbatim copies of the ones embedded
above from core/entity.rs). -/
def reconstructEntityP (s : PStore) (pre : Path) : Except StoreError Entity :=
  reconstructFromEndpoints (s.getPre pre) pre

/-! ## Value display and entity serialization (src/value.rs,
src/ql/evaluator.rs `entity_to_value`) -/

/-- Decimal rendering of an `i64` (Rust `Display`). -/
def intToStr (i : Int) : String :=
  if i < 0 then "-" ++ PathSegment.natToStr i.natAbs
  else PathSegment.natToStr i.toNat

/-- `impl Display for Value` (value.rs lines 84-104).  Strings are
wrapped in plain double quotes with no escaping, exactly as the
source's `write!(f, "\"\x7b\x7d\"", s)`. -/
def Value.display : Value → String
  | .Null => "null"
  | .Boolean b => if b then "true" else "false"
  | .Integer i => intToStr i
  | .Str s => "\"" ++ s ++ "\""
  | .Binary _ mime =>
    match mime with
    | some m => "[binary data: " ++ m ++ "]"
    | none => "[binary data]"
  | .Reference p => "@" ++ p.toStr

/-- Two-digit lowercase hex of a byte (for JSON control escapes). -/
def hexByte (n : Nat) : String :=
  ⟨[Nat.digitChar (n / 16 % 16), Nat.digitChar (n % 16)]⟩

/-- JSON escaping of one character (serde_json's string encoder). -/
def jsonEscapeChar (c : Char) : String :=
  if c = '"' then "\\\""
  else if c = '\\' then "\\\\"
  else if c = '\n' then "\\n"
  else if c = '\t' then "\\t"
  else if c = '\r' then "\\r"
  else if c.toNat < 0x20 then "\\u00" ++ hexByte c.toNat
  else ⟨[c]⟩

/-- JSON string literal. -/
def jsonString (s : String) : String :=
  "\"" ++ joinSep "" (s.data.map jsonEscapeChar) ++ "\""

/-- JSON form of a `SegmentType` under serde's derived externally
tagged representation (the `PathSegment` newtype is transparent). -/
def PathSegment.toJson : PathSegment → String
  | .Named n => "\x7b\"Named\":" ++ jsonString n ++ "\x7d"
  | .SingleWildcard => "\"SingleWildcard\""
  | .MultiWildcard => "\"MultiWildcard\""
  | .ArrayIndex i => "\x7b\"ArrayIndex\":" ++ natToStr i ++ "\x7d"

/-- JSON form of a `Path` (a struct with the `segments` field). -/
def Path.toJson (p : Path) : String :=
  "\x7b\"segments\":[" ++ joinSep "," (p.segments.map PathSegment.toJson) ++ "]\x7d"

mutual

/-- serde_json rendering of an `Entity` under the derived (externally
tagged) `Serialize` impl of entity.rs line 14, as produced by
`serde_json::to_string` in `entity_to_value` (evaluator.rs lines
332-338).  Objects iterate in the model's insertion order (the source's
`HashMap` order is unspecified). -/
def Entity.toJson : Entity → String
  | .Null => "\"Null\""
  | .Boolean b => "\x7b\"Boolean\":" ++ (if b then "true" else "false") ++ "\x7d"
  | .Integer i => "\x7b\"Integer\":" ++ intToStr i ++ "\x7d"
  | .Str s => "\x7b\"String\":" ++ jsonString s ++ "\x7d"
  | .Binary data mime =>
    "\x7b\"Binary\":[[" ++ joinSep "," (data.map PathSegment.natToStr) ++ "]," ++
      (match mime with
        | some m => jsonString m
        | none => "null") ++ "]\x7d"
  | .Reference p => "\x7b\"Reference\":" ++ p.toJson ++ "\x7d"
  | .Object fs => "\x7b\"Object\":\x7b" ++ Entity.fieldsToJson fs ++ "\x7d\x7d"
  | .Array xs => "\x7b\"Array\":[" ++ Entity.itemsToJson xs ++ "]\x7d"

/-- Comma-joined `"key":value` renderings of an object's fields. -/
def Entity.fieldsToJson : List (String × Entity) → String
  | [] => ""
  | [(k, e)] => jsonString k ++ ":" ++ Entity.toJson e
  | (k, e) :: rest =>
    jsonString k ++ ":" ++ Entity.toJson e ++ "," ++ Entity.fieldsToJson rest

/-- Comma-joined renderings of an array's items. -/
def Entity.itemsToJson : List Entity → String
  | [] => ""
  | [e] => Entity.toJson e
  | e :: rest => Entity.toJson e ++ "," ++ Entity.itemsToJson rest

end

/-- `entity_to_value` (evaluator.rs lines 321-341): scalars map to the
matching `Value`, objects and arrays to their JSON text as a string.
The source returns `Result` (serde failures); the model is total. -/
def entityToValue : Entity → Value
  | .Null => .Null
  | .Boolean b => .Boolean b
  | .Integer i => .Integer i
  | .Str s => .Str s
  | .Binary d m => .Binary d m
  | .Reference p => .Reference p
  | .Object fs => .Str (Entity.toJson (.Object fs))
  | .Array xs => .Str (Entity.toJson (.Array xs))

/-! ## Query-language AST and filtered-expression evaluation
(src/ql/ast.rs, src/ql/evaluator.rs) -/

/-- `ComparisonOperator` (ast.rs lines 36-49). -/
inductive ComparisonOperator where
  | Equal | NotEqual | LessThan | LessThanOrEqual
  | GreaterThan | GreaterThanOrEqual
deriving DecidableEq, Repr

/-- `LogicalOperator` (ast.rs lines 52-58). -/
inductive LogicalOperator where
  | And | Or
deriving DecidableEq, Repr

mutual

/-- `Expression` (ast.rs lines 81-104). -/
inductive Expression where
  | Literal (v : Value)
  | EPath (p : Path)
  | TheirPath (segs : List String)
  | FunctionCall (name : String) (arguments : List Expression)
  | Filtered (base : Expression) (whereClause : WhereClause)

/-- `Condition` (ast.rs lines 60-68): left operand, comparison
operator, right operand. -/
inductive Condition where
  | mk (left : Expression) (operator : ComparisonOperator) (right : Expression)

/-- `WhereClause` (ast.rs lines 71-79): a first condition and further
conditions each tagged with a logical operator. -/
inductive WhereClause where
  | mk (firstCondition : Condition)
      (additionalConditions : List (LogicalOperator × Condition))

end

/-- Field accessor. -/
def Condition.left : Condition → Expression
  | .mk l _ _ => l

/-- Field accessor. -/
def Condition.operator : Condition → ComparisonOperator
  | .mk _ o _ => o

/-- Field accessor. -/
def Condition.right : Condition → Expression
  | .mk _ _ r => r

/-- Field accessor. -/
def WhereClause.firstCondition : WhereClause → Condition
  | .mk f _ => f

/-- Field accessor. -/
def WhereClause.additionalConditions : WhereClause → List (LogicalOperator × Condition)
  | .mk _ a => a

/-- Lexicographic order on strings by character scalar value (Rust
`str` ordering is bytewise, which agrees with scalar-value order). -/
def strLt (a b : String) : Bool :=
  bytesLt (a.data.map Char.toNat) (b.data.map Char.toNat)

/-- `EvaluationContext::compare_values` (evaluator.rs lines 205-258).
Equality and inequality are structural for every pair; ordering is
defined for integer/integer and string/string pairs and fails with
`InvalidOperation` otherwise.  (The source also orders float pairs and
mixed integer/float pairs; floats are outside the model.) -/
def compareValues (left : Value) (operator : ComparisonOperator) (right : Value) :
    Except StoreError Bool :=
  match operator with
  | .Equal => .ok (left = right)
  | .NotEqual => .ok (left ≠ right)
  | .LessThan =>
    match left, right with
    | .Integer l, .Integer r => .ok (l < r)
    | .Str l, .Str r => .ok (strLt l r)
    | _, _ => .error (.InvalidOperation "Cannot compare with <")
  | .LessThanOrEqual =>
    match left, right with
    | .Integer l, .Integer r => .ok (l ≤ r)
    | .Str l, .Str r => .ok (strLt l r || l = r)
    | _, _ => .error (.InvalidOperation "Cannot compare with <=")
  | .GreaterThan =>
    match left, right with
    | .Integer l, .Integer r => .ok (l > r)
    | .Str l, .Str r => .ok (strLt r l)
    | _, _ => .error (.InvalidOperation "Cannot compare with >")
  | .GreaterThanOrEqual =>
    match left, right with
    | .Integer l, .Integer r => .ok (l ≥ r)
    | .Str l, .Str r => .ok (strLt r l || l = r)
    | _, _ => .error (.InvalidOperation "Cannot compare with >=")

/-- `EvaluationContext::extract_condition_if_their` (evaluator.rs lines
174-203): keeps `their.X <op> literal` conditions as-is, mirrors
`literal <op> their.X` with the reversed ordering operator, and rejects
anything else. -/
def extractConditionIfTheir (c : Condition) :
    Except StoreError (List String × ComparisonOperator × Value) :=
  match c.left, c.right with
  | .TheirPath path, .Literal value => .ok (path, c.operator, value)
  | .Literal value, .TheirPath path =>
    let reversedOperator : ComparisonOperator :=
      match c.operator with
      | .Equal => .Equal
      | .NotEqual => .NotEqual
      | .LessThan => .GreaterThan
      | .LessThanOrEqual => .GreaterThanOrEqual
      | .GreaterThan => .LessThan
      | .GreaterThanOrEqual => .LessThanOrEqual
    .ok (path, reversedOperator, value)
  | _, _ =>
    .error (.InvalidOperation
      "Where conditions must compare 'their' paths with literal values")

/-- `EvaluationContext::extract_their_conditions` (evaluator.rs lines
157-171): the first condition followed by every additional condition,
the logical operators being ignored. -/
def extractTheirConditions (w : WhereClause) :
    Except StoreError (List (List String × ComparisonOperator × Value)) := do
  let first ← extractConditionIfTheir w.firstCondition
  let rest ← w.additionalConditions.foldl
    (fun acc e => do
      let conds ← acc
      let c ← extractConditionIfTheir e.2
      pure (conds ++ [c]))
    (pure [])
  pure (first :: rest)

/-- The per-path accumulation step of the per-condition loop in
`evaluate_filtered_expression` (evaluator.rs lines 104-115): propagate
comparison errors, and insert the path's second segment into the id set
when the value passes the comparison and the path has at least two
segments. -/
def condStep (op : ComparisonOperator) (rv : Value)
    (acc : Except StoreError (List String)) (e : Path × Value) :
    Except StoreError (List String) := do
  let ids ← acc
  let passed ← compareValues e.2 op rv
  if passed then
    if 2 ≤ e.1.segments.length then
      let entityId := (e.1.segments.getD 1 .SingleWildcard).asStr
      pure (if entityId ∈ ids then ids else ids ++ [entityId])
    else pure ids
  else pure ids

/-- Declarative form of one `condStep` hit, used to state what the id
collection computes: the second segment of a queried path whose value
passes the comparison. -/
def condFilter (op : ComparisonOperator) (rv : Value) (e : Path × Value) :
    Option String :=
  if compareValues e.2 op rv = .ok true ∧ 2 ≤ e.1.segments.length then
    some ((e.1.segments.getD 1 .SingleWildcard).asStr)
  else none

/-- Entity-id set of one `their` condition (the per-condition loop of
`evaluate_filtered_expression`, evaluator.rs lines 92-115): query the
wildcard pattern `base.*.X`, keep the paths whose value satisfies the
condition, and collect the *second* segment (`path_segments[1]`) of
each such path as the entity id. -/
def conditionIds (store : PStore) (basePath : Path)
    (cond : List String × ComparisonOperator × Value) :
    Except StoreError (List String) := do
  let searchPathStr := basePath.toStr ++ ".*." ++ joinSep "." cond.1
  let searchPath ← match Path.fromStr searchPathStr with
    | .ok p => pure p
    | .error e => throw (.PathErr e)
  let matchingPaths := store.query searchPath
  matchingPaths.foldl (condStep cond.2.1 cond.2.2) (pure [])

/-- Intersection fold of `evaluate_filtered_expression` (evaluator.rs
lines 88-129): the id set of the first condition, intersected with the
id set of every further condition. -/
def allMatchingIds (store : PStore) (basePath : Path)
    (conds : List (List String × ComparisonOperator × Value)) :
    Except StoreError (List String) :=
  match conds with
  | [] => pure []
  | first :: rest => do
    let firstIds ← conditionIds store basePath first
    rest.foldl
      (fun acc cond => do
        let ids ← acc
        let condIds ← conditionIds store basePath cond
        pure (ids.filter (· ∈ condIds)))
      (pure firstIds)

/-- `EvaluationContext::evaluate_filtered_expression` (evaluator.rs
lines 70-155): the base must be a path; the `their` conditions are
extracted (an empty list is an error); their id sets are intersected;
each surviving entity is reconstructed at `base.<id>` (reconstruction
failures are skipped) and flattened to a `Value`; and the result is the
bracketed, comma-separated `Display` rendering of those values, as a
string. -/
def evaluateFilteredExpression (store : PStore) (base : Expression)
    (w : WhereClause) : Except StoreError Value := do
  let basePath ← match base with
    | .EPath path => pure path
    | _ => throw (.InvalidOperation
        "Filtering is currently only supported on path expressions")
  let theirConditions ← extractTheirConditions w
  if theirConditions.isEmpty then
    throw (.InvalidOperation "Where clause must contain conditions on 'their' paths")
  let ids ← allMatchingIds store basePath theirConditions
  let resultEntities ← ids.foldl
    (fun acc entityId => do
      let entities ← acc
      let entityPathStr := basePath.toStr ++ "." ++ entityId
      let entityPath ← match Path.fromStr entityPathStr with
        | .ok p => pure p
        | .error e => throw (.PathErr e)
      match reconstructEntityP store entityPath with
      | .ok entity => pure (entities ++ [entityToValue entity])
      | .error _ => pure entities)
    (pure [])
  pure (.Str ("[" ++ joinSep ", " (resultEntities.map Value.display) ++ "]"))

/-! ## Index worker (src/core/index/worker.rs, src/core/index/types.rs)

The worker owns a FIFO queue (the mpsc channel), a statistics record
behind a mutex, and the registered indexes in registration order.  The
indexes are modelled generically: a state type `σ` together with the
`add_path`/`remove_path` functions of the `AnyIndex` trait object; a
heterogeneous index list is obtained by instantiating `σ` with a sum
type.  Concurrency is serialized: `submit_operation` and one iteration
of `process_operations` are each a single step, which matches the
source because the stats mutex makes counter updates atomic and the
worker task handles one dequeued operation at a time. -/

/-- `IndexStats` (types.rs lines 23-34); the counters are `usize`. -/
structure IndexStats where
  totalOperations : Nat
  totalAdds : Nat
  totalRemoves : Nat
  pendingOperations : Nat
deriving DecidableEq, Repr

/-- `IndexOp` (types.rs lines 8-20).  The source enum also has an
`AddWithValue(Path, Value)` variant for the stubbed value index; the
worker loop's `match` has no arm for it (the file does not compile as
given), so the model treats it as a skipped no-op; no claim concerns
it. -/
inductive IndexOp where
  | Add (p : Path)
  | Remove (p : Path)
  | AddWithValue (p : Path) (v : Value)
  | Flush
  | Shutdown
deriving DecidableEq, Repr

/-- The `add_path`/`remove_path` interface of one registered index
(`AnyIndex`, worker.rs lines 11-15). -/
structure IdxOps (σ : Type) where
  addPath : Path → σ → Except StoreError σ
  removePath : Path → σ → Except StoreError σ

/-- Worker state: the queued operations in FIFO order, the statistics,
and the registered index states in registration order. -/
structure WorkerState (σ : Type) where
  queue : List IndexOp
  stats : IndexStats
  indexes : List σ
deriving DecidableEq, Repr

/-- `IndexWorker::submit_operation` (worker.rs lines 182-199):
`pending_operations` is incremented exactly for `Add` and `Remove`
operations, then the operation is enqueued. -/
def submitOperation {σ : Type} (op : IndexOp) (s : WorkerState σ) : WorkerState σ :=
  let stats :=
    match op with
    | .Add _ | .Remove _ =>
      { s.stats with pendingOperations := s.stats.pendingOperations + 1 }
    | _ => s.stats
  { s with stats := stats, queue := s.queue ++ [op] }

/-- The per-operation index loop (worker.rs lines 130-142 and
154-158): apply `f` to every index in registration order, keeping the
old state of an index whose application fails, and report whether at
least one application succeeded. -/
def applyAll {σ : Type} (f : σ → Except StoreError σ) :
    List σ → List σ × Bool
  | [] => ([], false)
  | i :: rest =>
    let r := applyAll f rest
    match f i with
    | .ok i2 => (i2 :: r.1, true)
    | .error _ => (i :: r.1, r.2)

/-- One iteration of `IndexWorker::process_operations` (worker.rs lines
112-177): dequeue one operation; for `Add`/`Remove` apply it to every
index and, when at least one index succeeded, bump `total_operations`
and the matching `total_adds`/`total_removes` and decrement
`pending_operations` (`saturating_sub`, which is `Nat` subtraction);
`Flush` does no work; `Shutdown` breaks the loop (the stopping itself
is control flow and not modelled).  `none` when the queue is empty
(`rx.recv()` pending). -/
def processOne {σ : Type} (ops : IdxOps σ) (s : WorkerState σ) :
    Option (WorkerState σ) :=
  match s.queue with
  | [] => none
  | op :: rest =>
    some <|
      match op with
      | .Add p =>
        let r := applyAll (ops.addPath p) s.indexes
        { queue := rest, indexes := r.1,
          stats :=
            if r.2 then
              { totalOperations := s.stats.totalOperations + 1,
                totalAdds := s.stats.totalAdds + 1,
                totalRemoves := s.stats.totalRemoves,
                pendingOperations := s.stats.pendingOperations - 1 }
            else s.stats }
      | .Remove p =>
        let r := applyAll (ops.removePath p) s.indexes
        { queue := rest, indexes := r.1,
          stats :=
            if r.2 then
              { totalOperations := s.stats.totalOperations + 1,
                totalAdds := s.stats.totalAdds,
                totalRemoves := s.stats.totalRemoves + 1,
                pendingOperations := s.stats.pendingOperations - 1 }
            else s.stats }
      | .AddWithValue _ _ => { s with queue := rest }
      | .Flush => { s with queue := rest }
      | .Shutdown => { s with queue := rest }

/-! ## Concrete example data used by the theorems -/

/-- `users.u1.name`. -/
def exU1Name : Path := ⟨[.Named "users", .Named "u1", .Named "name"]⟩

/-- `users.u1.email`. -/
def exU1Email : Path := ⟨[.Named "users", .Named "u1", .Named "email"]⟩

/-- `users.u2.name`. -/
def exU2Name : Path := ⟨[.Named "users", .Named "u2", .Named "name"]⟩

/-- `users2.x`. -/
def exUsers2X : Path := ⟨[.Named "users2", .Named "x"]⟩

/-- `users.u1.profile.bio`. -/
def exU1ProfileBio : Path :=
  ⟨[.Named "users", .Named "u1", .Named "profile", .Named "bio"]⟩

/-- `users.u2.bio`. -/
def exU2Bio : Path := ⟨[.Named "users", .Named "u2", .Named "bio"]⟩

/-- `posts.p1.bio`. -/
def exP1Bio : Path := ⟨[.Named "posts", .Named "p1", .Named "bio"]⟩

/-- The pattern `users.**.bio`. -/
def exPatBio : Path := ⟨[.Named "users", .MultiWildcard, .Named "bio"]⟩

/-- The spec's scenario-6 store: `users.u1.active=true`,
`users.u1.name="alice"`, `users.u2.active=false`, `users.u2.name="bob"`
set in order on a fresh top-level persistent store. -/
def exStoreUsers : Except StoreError PStore := do
  let s ← PStore.empty.set ⟨[.Named "users", .Named "u1", .Named "active"]⟩ (.Boolean true)
  let s ← s.set ⟨[.Named "users", .Named "u1", .Named "name"]⟩ (.Str "alice")
  let s ← s.set ⟨[.Named "users", .Named "u2", .Named "active"]⟩ (.Boolean false)
  s.set ⟨[.Named "users", .Named "u2", .Named "name"]⟩ (.Str "bob")

/-- A store whose base path has two segments: `a.b.c1.active=true`,
`a.b.c1.name="x"`. -/
def exStoreAB : Except StoreError PStore := do
  let s ← PStore.empty.set
    ⟨[.Named "a", .Named "b", .Named "c1", .Named "active"]⟩ (.Boolean true)
  s.set ⟨[.Named "a", .Named "b", .Named "c1", .Named "name"]⟩ (.Str "x")

/-- The where clause `where their.active == true`. -/
def exWhereActive : WhereClause :=
  .mk (.mk (.TheirPath ["active"]) .Equal (.Literal (.Boolean true))) []

/-- Segments for which the textual rendering parses back to the same
segment: a `Named` segment that is non-empty, contains no `'.'`, and is
not itself re-parsed as a wildcard or array-index token, an
`ArrayIndex` below `2^64` (automatic for a Rust `usize`), or a
wildcard. -/
def goodSegment : PathSegment → Bool
  | .Named n =>
    !(n = "") && !(n.data.any (· = '.')) && decide (PathSegment.new n = .Named n)
  | .ArrayIndex i => decide (i < 2 ^ 64)
  | .SingleWildcard => true
  | .MultiWildcard => true

/-- The C4 scenario store, with the textual paths parsed by
`Path::from_str` (so the array syntax stays embedded in `Named`
segments). -/
def exStoreTags : MemoryStore := ⟨[
  (⟨[.Named "users", .Named "u1", .Named "name"]⟩, .Str "alice"),
  (⟨[.Named "users", .Named "u1", .Named "tags[0]"]⟩, .Str "rust"),
  (⟨[.Named "users", .Named "u1", .Named "tags[1]"]⟩, .Str "db")]⟩

/-- The C4 scenario store with genuine `ArrayIndex` segments (as
produced by `Path::from_segments`). -/
def exStoreTagsIdx : MemoryStore := ⟨[
  (⟨[.Named "users", .Named "u1", .Named "name"]⟩, .Str "alice"),
  (⟨[.Named "users", .Named "u1", .Named "tags", .ArrayIndex 0]⟩, .Str "rust"),
  (⟨[.Named "users", .Named "u1", .Named "tags", .ArrayIndex 1]⟩, .Str "db")]⟩

/-- The two-segment-base store of `exStoreAB`, extracted. -/
def exPSAB : PStore := exStoreAB.toOption.getD PStore.empty

/-- A worker instance over boolean index states: `add_path` always
succeeds (flipping the state), `remove_path` always fails. -/
def exIdxOps : IdxOps Bool :=
  ⟨fun _ b => .ok (!b), fun _ _ => .error (.Internal "fail")⟩

/-- A worker state with one queued `Add` and two registered indexes. -/
def exWorker : WorkerState Bool := ⟨[.Add ⟨[.Named "a"]⟩], ⟨0, 0, 0, 1⟩, [true, false]⟩

/-! ## Supporting lemmas -/

theorem alFind_alInsert_self {κ α : Type} [DecidableEq κ]
    (l : List (κ × α)) (k : κ) (a : α) : alFind (alInsert l k a) k = some a := by
  induction l with
  | nil => simp [alInsert, alFind]
  | cons e rest ih =>
    by_cases h : k = e.1
    · simp [alInsert, alFind, h]
    · simp [alInsert, alFind, h, ih]

theorem bytesLt_irrefl (a : List Nat) : bytesLt a a = false := by
  induction a with
  | nil => rfl
  | cons x xs ih => simp [bytesLt, ih]

theorem bytesLt_nil_left (x : List Nat) : bytesLt x [] = false := by
  cases x <;> rfl

theorem bytesLt_append_right (a : List Nat) {x : List Nat} (hx : x ≠ []) :
    bytesLt a (a ++ x) = true := by
  induction a with
  | nil => cases x with
    | nil => exact absurd rfl hx
    | cons y ys => rfl
  | cons b bs ih => simpa [bytesLt] using ih

theorem bytesLt_append_left_self (a x : List Nat) :
    bytesLt (a ++ x) a = false := by
  induction a with
  | nil => exact bytesLt_nil_left x
  | cons b bs ih => simpa [bytesLt] using ih

theorem bytesLt_append_both (c x y : List Nat) :
    bytesLt (c ++ x) (c ++ y) = bytesLt x y := by
  induction c with
  | nil => rfl
  | cons b bs ih => simpa [bytesLt] using ih

theorem char_toNat_lt (c : Char) : c.toNat < 0x110000 := by
  have hv := c.valid
  have he : c.toNat = c.val.toNat := rfl
  simp only [UInt32.isValidChar, Nat.isValidChar] at hv
  omega

theorem utf8Bytes_cons (c : Char) :
    ∃ h t, utf8Bytes c = h :: t ∧ h < 255 := by
  have hval : c.toNat < 0x110000 := char_toNat_lt c
  unfold utf8Bytes
  by_cases h1 : c.toNat < 0x80
  · exact ⟨c.toNat, [], by simp [h1], by omega⟩
  · by_cases h2 : c.toNat < 0x800
    · exact ⟨0xC0 + c.toNat / 64, [0x80 + c.toNat % 64], by simp [h1, h2], by omega⟩
    · by_cases h3 : c.toNat < 0x10000
      · exact ⟨0xE0 + c.toNat / 4096,
          [0x80 + c.toNat / 64 % 64, 0x80 + c.toNat % 64], by simp [h1, h2, h3],
          by omega⟩
      · exact ⟨0xF0 + c.toNat / 262144,
          [0x80 + c.toNat / 4096 % 64, 0x80 + c.toNat / 64 % 64, 0x80 + c.toNat % 64],
          by simp [h1, h2, h3], by omega⟩

theorem strBytes_head_lt {s : String} {h : Nat} {t : List Nat}
    (he : strBytes s = h :: t) : h < 255 := by
  obtain ⟨cs⟩ := s
  cases cs with
  | nil => simp [strBytes] at he
  | cons c rest =>
    obtain ⟨hb, tb, hc, hlt⟩ := utf8Bytes_cons c
    simp [strBytes, hc] at he
    omega

theorem strBytes_append (a b : String) :
    strBytes (a ++ b) = strBytes a ++ strBytes b := by
  obtain ⟨as⟩ := a
  obtain ⟨bs⟩ := b
  simp [strBytes, String.data_append]

theorem joinSep_cons_cons (sep : String) (x y : String) (ys : List String) :
    joinSep sep (x :: y :: ys) = x ++ sep ++ joinSep sep (y :: ys) := rfl

theorem joinSep_append (sep : String) (a b : List String) (ha : a ≠ []) :
    joinSep sep (a ++ b) =
      joinSep sep a ++ (if b.isEmpty then "" else sep ++ joinSep sep b) := by
  induction a with
  | nil => exact absurd rfl ha
  | cons x xs ih =>
    cases xs with
    | nil =>
      cases b with
      | nil => simp [joinSep]
      | cons y ys => simp [joinSep, String.append_assoc]
    | cons x2 xs2 =>
      have hne : x2 :: xs2 ≠ [] := by simp
      calc joinSep sep ((x :: x2 :: xs2) ++ b)
          = x ++ sep ++ joinSep sep ((x2 :: xs2) ++ b) := rfl
        _ = x ++ sep ++ (joinSep sep (x2 :: xs2) ++
              (if b.isEmpty then "" else sep ++ joinSep sep b)) := by rw [ih hne]
        _ = _ := by rw [joinSep_cons_cons]; simp [String.append_assoc]

theorem splitDotAux_no_dot (cs : List Char) (acc : List Char)
    (h : ∀ c ∈ cs, c ≠ '.') : splitDotAux cs acc = [⟨acc.reverse ++ cs⟩] := by
  induction cs generalizing acc with
  | nil => simp [splitDotAux]
  | cons c rest ih =>
    have hc : c ≠ '.' := h c (by simp)
    have hrest : ∀ c ∈ rest, c ≠ '.' := fun x hx => h x (by simp [hx])
    simp [splitDotAux, hc, ih (c :: acc) hrest]

theorem splitDotAux_dot_split (cs : List Char) (acc : List Char) (rest : List Char)
    (h : ∀ c ∈ cs, c ≠ '.') :
    splitDotAux (cs ++ '.' :: rest) acc =
      ⟨acc.reverse ++ cs⟩ :: splitDotAux rest [] := by
  induction cs generalizing acc with
  | nil => simp [splitDotAux]
  | cons c cs2 ih =>
    have hc : c ≠ '.' := h c (by simp)
    have hcs : ∀ x ∈ cs2, x ≠ '.' := fun x hx => h x (by simp [hx])
    simp [splitDotAux, hc, ih (c :: acc) hcs]

/-- Splitting is a retraction of joining for dot-free pieces. -/
theorem splitOnDot_joinSep (ss : List String) (hne : ss ≠ [])
    (h : ∀ s ∈ ss, ∀ c ∈ s.data, c ≠ '.') :
    splitOnDot (joinSep "." ss) = ss := by
  induction ss with
  | nil => exact absurd rfl hne
  | cons x xs ih =>
    cases xs with
    | nil =>
      have hx : ∀ c ∈ x.data, c ≠ '.' := h x (by simp)
      simp only [joinSep, splitOnDot]
      rw [splitDotAux_no_dot x.data [] hx]
      simp
    | cons y ys =>
      have hx : ∀ c ∈ x.data, c ≠ '.' := h x (by simp)
      have hrest : ∀ s ∈ y :: ys, ∀ c ∈ s.data, c ≠ '.' := by
        intro s hs
        exact h s (List.mem_cons_of_mem x hs)
      have ihr := ih (by simp) hrest
      simp only [joinSep_cons_cons, splitOnDot] at ihr ⊢
      have hdata : (x ++ "." ++ joinSep "." (y :: ys)).data =
          x.data ++ '.' :: (joinSep "." (y :: ys)).data := by
        simp [String.data_append]
      rw [hdata, splitDotAux_dot_split x.data [] _ hx]
      simp only [List.reverse_nil, List.nil_append]
      rw [ihr]

/-- A wildcard-free prefix that `starts_with`-matches is a literal
segment-list prefix. -/
theorem startsWith_concrete_eq (qs ps : List PathSegment)
    (hlen : ps.length ≤ qs.length)
    (hall : ((ps.zip qs).all fun s => s.1.smatches s.2) = true)
    (hwf : ∀ s ∈ ps, s.isWildcard = false) :
    ∃ rest, qs = ps ++ rest := by
  induction ps generalizing qs with
  | nil => exact ⟨qs, rfl⟩
  | cons p ps2 ih =>
    cases qs with
    | nil => simp at hlen
    | cons q qs2 =>
      have hzip : (((p, q) :: ps2.zip qs2).all fun s => s.1.smatches s.2) = true := hall
      rw [List.all_cons] at hzip
      have hpq : p.smatches q = true := by
        have := hzip
        simp at this
        exact this.1
      have hpwf : p.isWildcard = false := hwf p (by simp)
      have hpe : p = q := by
        cases p with
        | Named n =>
          cases q with
          | Named m => simp [PathSegment.smatches] at hpq; simp [hpq]
          | SingleWildcard => simp [PathSegment.smatches] at hpq
          | MultiWildcard => simp [PathSegment.smatches] at hpq
          | ArrayIndex i => simp [PathSegment.smatches] at hpq
        | SingleWildcard => simp [PathSegment.isWildcard, PathSegment.isSingleWildcard] at hpwf
        | MultiWildcard => simp [PathSegment.isWildcard, PathSegment.isMultiWildcard] at hpwf
        | ArrayIndex i =>
          cases q with
          | Named m => simp [PathSegment.smatches] at hpq
          | SingleWildcard => simp [PathSegment.smatches] at hpq
          | MultiWildcard => simp [PathSegment.smatches] at hpq
          | ArrayIndex j => simp [PathSegment.smatches] at hpq; simp [hpq]
      have hlen2 : ps2.length ≤ qs2.length := by simpa using hlen
      have hall2 : ((ps2.zip qs2).all fun s => s.1.smatches s.2) = true := by
        have := hzip
        simp only [Bool.and_eq_true] at this
        exact this.2
      have hwf2 : ∀ s ∈ ps2, s.isWildcard = false := fun s hs => hwf s (by simp [hs])
      obtain ⟨rest, hrest⟩ := ih qs2 hlen2 hall2 hwf2
      exact ⟨rest, by simp [hpe, hrest]⟩

theorem digitChar_isDigit {d : Nat} (h : d < 10) :
    (Nat.digitChar d).isDigit = true := by
  interval_cases d <;> decide

theorem digitChar_toNat_sub {d : Nat} (h : d < 10) :
    (Nat.digitChar d).toNat - 48 = d := by
  interval_cases d <;> decide

theorem digitChar_ne_dot {d : Nat} (h : d < 10) : Nat.digitChar d ≠ '.' := by
  interval_cases d <;> decide

theorem natDigitsAux_spec (fuel : Nat) :
    ∀ n, n < fuel →
      PathSegment.natDigitsAux fuel n ≠ [] ∧
      (∀ c ∈ PathSegment.natDigitsAux fuel n, c.isDigit = true ∧ c ≠ '.') ∧
      ∀ a, (PathSegment.natDigitsAux fuel n).foldl
          (fun a c => a * 10 + (c.toNat - 48)) a =
        a * 10 ^ (PathSegment.natDigitsAux fuel n).length + n := by
  induction fuel with
  | zero => intro n h; omega
  | succ fuel ih =>
    intro n h
    by_cases hn : n < 10
    · refine ⟨by simp [PathSegment.natDigitsAux, hn], ?_, ?_⟩
      · intro c hc
        simp [PathSegment.natDigitsAux, hn] at hc
        exact ⟨hc ▸ digitChar_isDigit hn, hc ▸ digitChar_ne_dot hn⟩
      · intro a
        simp [PathSegment.natDigitsAux, hn, digitChar_toNat_sub hn]
    · have hdiv : n / 10 < fuel := by omega
      obtain ⟨ihne, ihdig, ihfold⟩ := ih (n / 10) hdiv
      have hmod : n % 10 < 10 := Nat.mod_lt _ (by omega)
      refine ⟨by simp [PathSegment.natDigitsAux, hn], ?_, ?_⟩
      · intro c hc
        simp [PathSegment.natDigitsAux, hn] at hc
        rcases hc with hc | hc
        · exact ihdig c hc
        · exact ⟨hc ▸ digitChar_isDigit hmod, hc ▸ digitChar_ne_dot hmod⟩
      · intro a
        have step : PathSegment.natDigitsAux (fuel + 1) n =
            PathSegment.natDigitsAux fuel (n / 10) ++ [Nat.digitChar (n % 10)] := by
          simp [PathSegment.natDigitsAux, hn]
        rw [step, List.foldl_append, ihfold a]
        simp only [List.foldl_cons, List.foldl_nil, List.length_append,
          List.length_cons, List.length_nil]
        rw [digitChar_toNat_sub hmod]
        have : a * 10 ^ ((PathSegment.natDigitsAux fuel (n / 10)).length + (0 + 1)) =
            a * 10 ^ (PathSegment.natDigitsAux fuel (n / 10)).length * 10 := by
          ring
        rw [this]
        have hdm := Nat.div_add_mod n 10
        ring_nf
        omega

theorem natToStr_data (n : Nat) :
    (PathSegment.natToStr n).data = PathSegment.natDigitsAux (n + 1) n := rfl

theorem parseUsize_natToStr {n : Nat} (h : n < 2 ^ 64) :
    parseUsize (PathSegment.natToStr n) = some n := by
  obtain ⟨hne, hdig, hfold⟩ := natDigitsAux_spec (n + 1) n (by omega)
  have hhead : ¬((PathSegment.natToStr n).data.head? = some '+') := by
    rw [natToStr_data]
    cases hcs : PathSegment.natDigitsAux (n + 1) n with
    | nil => exact absurd hcs hne
    | cons c rest =>
      simp only [List.head?_cons, ne_eq, Option.some.injEq]
      intro hplus
      have hcd := (hdig c (by rw [hcs]; exact List.mem_cons_self c rest)).1
      rw [hplus] at hcd
      exact absurd hcd (by decide)
  have hie : ¬((PathSegment.natToStr n).data.isEmpty = true) := by
    rw [natToStr_data]
    intro hx
    exact hne (List.isEmpty_iff.mp hx)
  have hall : (PathSegment.natToStr n).data.all (·.isDigit) = true := by
    rw [natToStr_data, List.all_eq_true]
    intro c hc
    exact (hdig c hc).1
  simp only [parseUsize, if_neg hhead, if_neg hie, hall, if_pos]
  rw [natToStr_data, hfold 0]
  simp only [Nat.zero_mul, Nat.zero_add]
  rw [if_pos h]

theorem natToStr_ne_dot (n : Nat) : ∀ c ∈ (PathSegment.natToStr n).data, c ≠ '.' := by
  obtain ⟨hne, hdig, hfold⟩ := natDigitsAux_spec (n + 1) n (by omega)
  intro c hc
  exact (hdig c (by rwa [natToStr_data] at hc)).2

theorem asStr_bracket_data (i : Nat) :
    (PathSegment.asStr (.ArrayIndex i)).data =
      '[' :: ((PathSegment.natToStr i).data ++ [']']) := rfl

theorem new_asStr_arrayIndex {i : Nat} (h : i < 2 ^ 64) :
    PathSegment.new (PathSegment.asStr (.ArrayIndex i)) = .ArrayIndex i := by
  have hdata := asStr_bracket_data i
  have hnotstar : ¬(PathSegment.asStr (.ArrayIndex i) = "*") := by
    intro hx
    have := congrArg String.data hx
    rw [hdata] at this
    simp at this
  have hnotstar2 : ¬(PathSegment.asStr (.ArrayIndex i) = "**") := by
    intro hx
    have := congrArg String.data hx
    rw [hdata] at this
    simp at this
  have hstrip : stripBrackets (PathSegment.asStr (.ArrayIndex i)) =
      some (PathSegment.natToStr i) := by
    unfold stripBrackets
    rw [hdata]
    simp [List.getLast?_concat]
  unfold PathSegment.new
  rw [if_neg hnotstar, if_neg hnotstar2]
  simp only [hstrip, parseUsize_natToStr h]

/-- For a good segment, `PathSegment::new` undoes `as_str`. -/
theorem new_asStr_good {seg : PathSegment} (h : goodSegment seg = true) :
    PathSegment.new seg.asStr = seg := by
  cases seg with
  | Named n =>
    simp only [goodSegment, Bool.and_eq_true, decide_eq_true_eq] at h
    exact h.2
  | SingleWildcard => rfl
  | MultiWildcard => rfl
  | ArrayIndex i =>
    simp only [goodSegment, decide_eq_true_eq] at h
    exact new_asStr_arrayIndex h

/-- A good segment's rendering contains no dot. -/
theorem asStr_good_no_dot {seg : PathSegment} (h : goodSegment seg = true) :
    ∀ c ∈ seg.asStr.data, c ≠ '.' := by
  cases seg with
  | Named n =>
    simp only [goodSegment, Bool.and_eq_true, Bool.not_eq_true'] at h
    intro c hc he
    have hany : n.data.any (· = '.') = true := by
      rw [List.any_eq_true]
      exact ⟨c, hc, by simp [he]⟩
    rw [h.1.2] at hany
    exact Bool.false_ne_true hany
  | SingleWildcard =>
    intro c hc
    have : c = '*' := by simpa [PathSegment.asStr] using hc
    rw [this]
    decide
  | MultiWildcard =>
    intro c hc
    have : c = '*' := by
      have hx : c ∈ ['*', '*'] := hc
      simpa using hx
    rw [this]
    decide
  | ArrayIndex i =>
    intro c hc
    rw [asStr_bracket_data i] at hc
    simp only [List.mem_cons, List.mem_append, List.mem_singleton] at hc
    rcases hc with hc | hc | hc | hc
    · rw [hc]; decide
    · exact natToStr_ne_dot i c hc
    · rw [hc]; decide
    · simp at hc

theorem applyAll_eq {σ : Type} (f : σ → Except StoreError σ) (l : List σ) :
    applyAll f l =
      (l.map fun i => match f i with | .ok j => j | .error _ => i,
       l.any fun i => (f i).isOk) := by
  induction l with
  | nil => rfl
  | cons i rest ih =>
    simp only [applyAll, ih, List.map_cons, List.any_cons]
    cases hf : f i with
    | ok j => simp [hf, Except.isOk, Except.toBool]
    | error e => simp [hf, Except.isOk, Except.toBool]

theorem except_bind_ok {α β : Type} (a : α) (f : α → Except StoreError β) :
    (Except.ok a >>= f) = f a := rfl

theorem except_bind_error {α β : Type} (e : StoreError)
    (f : α → Except StoreError β) :
    ((Except.error e : Except StoreError α) >>= f) = .error e := rfl

theorem except_pure {α : Type} (a : α) :
    (pure a : Except StoreError α) = .ok a := rfl

theorem condStep_foldl_error (op : ComparisonOperator) (rv : Value)
    (l : List (Path × Value)) (err : StoreError) :
    l.foldl (condStep op rv) (.error err) = .error err := by
  induction l with
  | nil => rfl
  | cons e rest ih => simpa [condStep, except_bind_error] using ih

theorem condStep_ok (op : ComparisonOperator) (rv : Value)
    (acc : List String) (e : Path × Value) {b : Bool}
    (hc : compareValues e.2 op rv = .ok b) :
    condStep op rv (.ok acc) e =
      if b then
        if 2 ≤ e.1.segments.length then
          .ok (if (e.1.segments.getD 1 .SingleWildcard).asStr ∈ acc then acc
            else acc ++ [(e.1.segments.getD 1 .SingleWildcard).asStr])
        else .ok acc
      else .ok acc := by
  simp only [condStep, except_bind_ok, hc]
  rcases b with _ | _
  · rfl
  · by_cases hlen : 2 ≤ e.1.segments.length
    · simp [hlen, except_pure]
    · simp [hlen, except_pure]

theorem condStep_foldl_mem (op : ComparisonOperator) (rv : Value)
    (l : List (Path × Value)) :
    ∀ acc ids, l.foldl (condStep op rv) (.ok acc) = .ok ids →
      ∀ a, a ∈ ids ↔ a ∈ acc ∨ a ∈ l.filterMap (condFilter op rv) := by
  induction l with
  | nil =>
    intro acc ids hfold a
    simp only [List.foldl_nil, Except.ok.injEq] at hfold
    simp [hfold]
  | cons e rest ih =>
    intro acc ids hfold a
    rw [List.foldl_cons] at hfold
    cases hc : compareValues e.2 op rv with
    | error err =>
      rw [show condStep op rv (.ok acc) e = .error err by
        simp [condStep, except_bind_ok, hc, except_bind_error]] at hfold
      rw [condStep_foldl_error] at hfold
      exact absurd hfold (by simp)
    | ok b =>
      rw [condStep_ok op rv acc e hc] at hfold
      rcases b with _ | _
      · rw [if_neg (by simp)] at hfold
        have hmem := ih _ ids hfold a
        have hfe : condFilter op rv e = none := by
          simp only [condFilter]
          rw [if_neg]
          intro hx
          rw [hc] at hx
          simp at hx
        rw [hmem]
        simp [List.filterMap_cons, hfe]
      · rw [if_pos rfl] at hfold
        by_cases hlen : 2 ≤ e.1.segments.length
        · rw [if_pos hlen] at hfold
          have hmem := ih _ ids hfold a
          have hfe : condFilter op rv e =
              some ((e.1.segments.getD 1 .SingleWildcard).asStr) := by
            simp [condFilter, hc, hlen]
          rw [hmem]
          simp only [List.filterMap_cons, hfe]
          set x := (e.1.segments.getD 1 .SingleWildcard).asStr with hx
          constructor
          · intro hor
            rcases hor with hor | hor
            · by_cases hin : x ∈ acc
              · rw [if_pos hin] at hor
                exact Or.inl hor
              · rw [if_neg hin] at hor
                rcases List.mem_append.mp hor with hor | hor
                · exact Or.inl hor
                · simp at hor
                  simp [hor]
            · simp [hor]
          · intro hor
            rcases hor with hor | hor
            · refine Or.inl ?_
              by_cases hin : x ∈ acc
              · rwa [if_pos hin]
              · rw [if_neg hin]
                exact List.mem_append_left _ hor
            · simp only [List.mem_cons] at hor
              rcases hor with hor | hor
              · refine Or.inl ?_
                by_cases hin : x ∈ acc
                · rw [if_pos hin]
                  rwa [hor]
                · rw [if_neg hin]
                  exact List.mem_append_right _ (by simp [hor])
              · exact Or.inr hor
        · rw [if_neg hlen] at hfold
          have hmem := ih _ ids hfold a
          have hfe : condFilter op rv e = none := by
            simp [condFilter, hlen]
          rw [hmem]
          simp [List.filterMap_cons, hfe]

/-- Membership characterization of `conditionIds`: an id is collected
exactly when some queried endpoint passes the comparison and
contributes it as the second segment of its path. -/
theorem conditionIds_mem (store : PStore) (basePath : Path)
    (cond : List String × ComparisonOperator × Value) (sp : Path)
    (hsp : Path.fromStr (basePath.toStr ++ ".*." ++ joinSep "." cond.1) = .ok sp)
    (ids : List String)
    (hids : conditionIds store basePath cond = .ok ids) (a : String) :
    a ∈ ids ↔
      a ∈ (store.query sp).filterMap (condFilter cond.2.1 cond.2.2) := by
  simp only [conditionIds, hsp, except_bind_ok, except_pure] at hids
  have := condStep_foldl_mem cond.2.1 cond.2.2 (store.query sp) [] ids hids a
  simpa using this

theorem asStr_good_ne_empty {seg : PathSegment} (h : goodSegment seg = true) :
    ¬(seg.asStr = "") := by
  cases seg with
  | Named n =>
    simp only [goodSegment, Bool.and_eq_true, Bool.not_eq_true'] at h
    intro hx
    rw [PathSegment.asStr] at hx
    rw [hx] at h
    simp at h
  | SingleWildcard => decide
  | MultiWildcard => decide
  | ArrayIndex i =>
    intro hx
    have := congrArg String.data hx
    rw [asStr_bracket_data i] at this
    simp at this

theorem toStr_ne_empty {p : Path} (hne : p.segments ≠ [])
    (hgood : ∀ s ∈ p.segments, goodSegment s = true) : ¬(p.toStr = "") := by
  obtain ⟨segs⟩ := p
  cases segs with
  | nil => exact absurd rfl hne
  | cons x xs =>
    cases xs with
    | nil =>
      show ¬(joinSep "." [x.asStr] = "")
      exact asStr_good_ne_empty (hgood x (by simp))
    | cons y ys =>
      intro hx
      have hd := congrArg String.data hx
      have : (Path.toStr ⟨x :: y :: ys⟩).data =
          x.asStr.data ++ '.' :: (joinSep "." (y.asStr :: ys.map PathSegment.asStr)).data := by
        show (joinSep "." (x.asStr :: y.asStr :: ys.map PathSegment.asStr)).data = _
        rw [joinSep_cons_cons]
        simp [String.data_append]
      rw [this] at hd
      simp at hd

theorem strBytes_colon_append (x : String) :
    strBytes (":" ++ x) = 58 :: strBytes x := by
  rw [strBytes_append]
  rfl

/-- The index key of a stored path lies in the range scanned by
`find_by_prefix` for every wildcard-free non-empty prefix it
`starts_with`-extends. -/
theorem createIndexKey_in_range (P Q : Path) (hsw : Q.startsWith P = true)
    (hwf : P.hasWildcards = false) (hP : P.segments ≠ []) :
    bytesLt (PrefixIndex.createIndexKey Q) (PrefixIndex.createIndexKey P) = false ∧
    bytesLt (PrefixIndex.createIndexKey Q)
      (PrefixIndex.createIndexKey P ++ [58, 255]) = true := by
  rw [Path.startsWith] at hsw
  split at hsw
  · exact absurd hsw (by simp)
  · rename_i hlen
    have hwfall : ∀ s ∈ P.segments, s.isWildcard = false := by
      rw [Path.hasWildcards] at hwf
      intro s hs
      have := List.any_eq_false.mp hwf s hs
      simpa using this
    obtain ⟨rest, hqs⟩ := startsWith_concrete_eq Q.segments P.segments
      (by omega) hsw hwfall
    have hkeyQ : PrefixIndex.createIndexKey Q =
        strBytes (joinSep ":" (P.segments.map PathSegment.asStr ++
          rest.map PathSegment.asStr)) := by
      rw [PrefixIndex.createIndexKey, hqs, List.map_append]
    have hA : P.segments.map PathSegment.asStr ≠ [] := by
      simpa using hP
    cases hrest : rest with
    | nil =>
      rw [hrest] at hkeyQ
      simp only [List.map_nil, List.append_nil] at hkeyQ
      have : PrefixIndex.createIndexKey Q = PrefixIndex.createIndexKey P := hkeyQ
      rw [this]
      exact ⟨bytesLt_irrefl _, bytesLt_append_right _ (by simp)⟩
    | cons r rs =>
      rw [hrest] at hkeyQ
      rw [joinSep_append ":" _ _ hA] at hkeyQ
      rw [if_neg (by simp)] at hkeyQ
      rw [show joinSep ":" (P.segments.map PathSegment.asStr) ++
          (":" ++ joinSep ":" ((r :: rs).map PathSegment.asStr)) =
          joinSep ":" (P.segments.map PathSegment.asStr) ++
          (":" ++ joinSep ":" ((r :: rs).map PathSegment.asStr)) from rfl] at hkeyQ
      rw [strBytes_append, strBytes_colon_append] at hkeyQ
      rw [hkeyQ]
      constructor
      · exact bytesLt_append_left_self _ _
      · rw [show (PrefixIndex.createIndexKey P ++ [58, 255] :
            List Nat) = PrefixIndex.createIndexKey P ++ (58 :: [255]) from rfl]
        rw [show PrefixIndex.createIndexKey P = strBytes
            (joinSep ":" (P.segments.map PathSegment.asStr)) from rfl]
        rw [bytesLt_append_both]
        show (if (58 : Nat) < 58 then true
          else if 58 < 58 then false
          else bytesLt (strBytes (joinSep ":" ((r :: rs).map PathSegment.asStr))) [255]) = true
        rw [if_neg (by omega), if_neg (by omega)]
        cases hw : strBytes (joinSep ":" ((r :: rs).map PathSegment.asStr)) with
        | nil => rfl
        | cons h t =>
          have hlt : h < 255 := strBytes_head_lt hw
          show (if h < 255 then true else if 255 < h then false else bytesLt t []) = true
          rw [if_pos hlt]

/-- Everything in the scanned range is in `find_by_prefix`'s result. -/
theorem mem_findByPre_of_range (tree : PrefixIndex.Tree) (P Q : Path)
    (hmem : (PrefixIndex.createIndexKey Q, Q) ∈ tree)
    (h1 : bytesLt (PrefixIndex.createIndexKey Q) (PrefixIndex.createIndexKey P) = false)
    (h2 : bytesLt (PrefixIndex.createIndexKey Q)
      (PrefixIndex.createIndexKey P ++ [58, 255]) = true) :
    Q ∈ PrefixIndex.findByPre tree P := by
  have hranged : Q ∈ (tree.filter fun e =>
      !bytesLt e.1 (PrefixIndex.createIndexKey P) &&
        bytesLt e.1 (PrefixIndex.createIndexKey P ++ [58, 255])).map (·.2) := by
    refine List.mem_map.mpr ⟨(PrefixIndex.createIndexKey Q, Q), ?_, rfl⟩
    refine List.mem_filter.mpr ⟨hmem, ?_⟩
    simp [h1, h2]
  rw [PrefixIndex.findByPre]
  cases half : alFind tree (PrefixIndex.createIndexKey P) with
  | none => exact hranged
  | some path =>
    dsimp only
    by_cases hin : path ∈ (tree.filter fun e =>
        !bytesLt e.1 (PrefixIndex.createIndexKey P) &&
          bytesLt e.1 (PrefixIndex.createIndexKey P ++ [58, 255])).map (·.2)
    · rw [if_pos hin]
      exact hranged
    · rw [if_neg hin]
      exact List.mem_append_left _ hranged


/-! ## Claim theorems -/

/-- C1: for every path Q and pattern P, `Q.matches(P)` follows the
spec's recursive case split, in which pattern segments before a
MultiWildcard must match the corresponding leading path segments.  The
source's `Path::matches` (path.rs lines 190-236) never compares the
pattern segments preceding the first multi-wildcard with the path: at
path `posts.p1.bio` and pattern `users.**.bio` it returns `true`, while
the spec's case split returns `false` because `users` does not match
`posts`.  The repo's own test `test_wildcard_index_multi`
(wildcard_index.rs lines 496-531) expects `posts.p-789012.content.bio`
not to be reported for `users.**.bio` and therefore fails on this
code. -/
theorem c1_matches_skips_leading_segments :
    Path.pmatches ⟨[.Named "posts", .Named "p1", .Named "bio"]⟩
        ⟨[.Named "users", .MultiWildcard, .Named "bio"]⟩ = true ∧
      specMatches [.Named "posts", .Named "p1", .Named "bio"]
        [.Named "users", .MultiWildcard, .Named "bio"] = false := by decide

/-- C5: the spec says `u.tags[0]` parses to the three segments `u`,
`tags`, `[0]` with the last one an ArrayIndex.  `Path::from_str`
(path.rs lines 240-255) only splits on `'.'`, so the input parses to
the *two* segments `u` and `Named("tags[0]")`; the bracket syntax is
recognized only when it forms a whole dot-separated piece.  The repo's
own test `test_array_index_parsing` (path.rs lines 341-348) asserts
that segment 2 of `users.u-123456.tags[0]` is an array index and
therefore fails on this code. -/
theorem c5_array_index_not_split :
    Path.fromStr "u.tags[0]" = .ok ⟨[.Named "u", .Named "tags[0]"]⟩ ∧
      Path.fromStr "users.u-123456.tags[0]" =
        .ok ⟨[.Named "users", .Named "u-123456", .Named "tags[0]"]⟩ ∧
      PathSegment.new "tags[0]" = .Named "tags[0]" ∧
      PathSegment.new "[0]" = .ArrayIndex 0 := by decide

/-- C10: parsing is total on non-empty input with one segment per
dot-separated piece and no segment validation: `a..b` and `a.` parse
successfully into paths containing an empty `Named("")` segment, and
the store accepts such paths (`MemoryStore::set` only rejects the empty
path). -/
theorem c10_parse_total_no_validation (s : String) (h : ¬(s = "")) :
    Path.fromStr s = .ok ⟨(splitOnDot s).map PathSegment.new⟩ ∧
      Path.fromStr "a..b" = .ok ⟨[.Named "a", .Named "", .Named "b"]⟩ ∧
      Path.fromStr "a." = .ok ⟨[.Named "a", .Named ""]⟩ ∧
      MemoryStore.new.set ⟨[.Named "a", .Named "", .Named "b"]⟩ .Null =
        .ok ⟨[(⟨[.Named "a", .Named "", .Named "b"]⟩, .Null)]⟩ := by
  refine ⟨?_, by decide, by decide, by decide⟩
  rw [Path.fromStr, if_neg h]

/-- C10 witness at the input `a..b`. -/
theorem c10_parse_total_no_validation_witness :
    Path.fromStr "a..b" = .ok ⟨(splitOnDot "a..b").map PathSegment.new⟩ :=
  (c10_parse_total_no_validation "a..b" (by decide)).1

/-- C8: the spec claims `Path::parse(P.to_string()) == P` for every
path built from legal segments, with `Named` segments being *arbitrary*
non-empty strings.  A `Named` segment containing a `'.'` breaks the
round trip: `Named("a.b")` renders as `a.b` and re-parses as two
segments. -/
theorem c8_roundtrip_counterexample :
    Path.toStr ⟨[.Named "a.b"]⟩ = "a.b" ∧
      Path.fromStr (Path.toStr ⟨[.Named "a.b"]⟩) =
        .ok ⟨[.Named "a", .Named "b"]⟩ ∧
      ¬(Path.fromStr (Path.toStr ⟨[.Named "a.b"]⟩) = .ok ⟨[.Named "a.b"]⟩) := by
  decide

/-- C8 amended: the round trip `Path::from_str(P.to_string()) == P`
holds for every non-empty path whose segments are `goodSegment`s:
wildcards, array indexes (below `2^64`, automatic for `usize`), and
`Named` segments that are non-empty, contain no `'.'`, and are not
themselves re-parsed as wildcard or `[N]` tokens. -/
theorem c8_roundtrip_good (p : Path) (hne : p.segments ≠ [])
    (hgood : ∀ s ∈ p.segments, goodSegment s = true) :
    Path.fromStr p.toStr = .ok p := by
  have hpieces_ne : p.segments.map PathSegment.asStr ≠ [] := by
    simpa using hne
  have hnodot : ∀ s ∈ p.segments.map PathSegment.asStr, ∀ c ∈ s.data, c ≠ '.' := by
    intro s hs
    obtain ⟨seg, hseg, rfl⟩ := List.mem_map.mp hs
    exact asStr_good_no_dot (hgood seg hseg)
  have hsplit := splitOnDot_joinSep _ hpieces_ne hnodot
  rw [Path.fromStr, if_neg (toStr_ne_empty hne hgood)]
  rw [show splitOnDot p.toStr = p.segments.map PathSegment.asStr from hsplit]
  rw [List.map_map]
  have hmap : p.segments.map (PathSegment.new ∘ PathSegment.asStr) = p.segments := by
    rw [List.map_congr_left fun s hs => ?_, List.map_id]
    exact new_asStr_good (hgood s hs)
  rw [hmap]

/-- C8 witness: the round trip at
`users.[3].*.**` (a named segment, an array index and both
wildcards). -/
theorem c8_roundtrip_good_witness :
    (⟨[.Named "users", .ArrayIndex 3, .SingleWildcard, .MultiWildcard]⟩ :
        Path).segments ≠ [] ∧
      Path.fromStr
          (Path.toStr ⟨[.Named "users", .ArrayIndex 3, .SingleWildcard,
            .MultiWildcard]⟩) =
        .ok ⟨[.Named "users", .ArrayIndex 3, .SingleWildcard, .MultiWildcard]⟩ :=
  ⟨by decide,
    c8_roundtrip_good _ (by decide) (by decide)⟩

/-- C4: the spec's scenario sets `users.u1.name="alice"`,
`users.u1.tags[0]="rust"`, `users.u1.tags[1]="db"` (textual paths) and
expects reconstruction at `users.u1` to yield an object with `tags`
equal to the array `["rust","db"]`.  Because the parser keeps
`tags[0]`/`tags[1]` as whole `Named` segments (C5), reconstruction
yields an object with the two *string-keyed scalar* fields `tags[0]`
and `tags[1]` and no `tags` field at all.  Even with genuine
`ArrayIndex` segments, `insert_into_entity` (entity.rs lines 134-143)
places the array under the empty key `""` of a nested object instead of
in the `tags` slot. -/
theorem c4_reconstruction_no_array :
    Path.fromStr "users.u1.tags[0]" =
        .ok ⟨[.Named "users", .Named "u1", .Named "tags[0]"]⟩ ∧
      (do
        let s1 ← MemoryStore.new.set
          ⟨[.Named "users", .Named "u1", .Named "name"]⟩ (.Str "alice")
        let s2 ← s1.set
          ⟨[.Named "users", .Named "u1", .Named "tags[0]"]⟩ (.Str "rust")
        s2.set ⟨[.Named "users", .Named "u1", .Named "tags[1]"]⟩ (.Str "db")) =
        .ok exStoreTags ∧
      reconstructEntity exStoreTags ⟨[.Named "users", .Named "u1"]⟩ =
        .ok (.Object [("name", .Str "alice"), ("tags[0]", .Str "rust"),
          ("tags[1]", .Str "db")]) ∧
      reconstructEntity exStoreTagsIdx ⟨[.Named "users", .Named "u1"]⟩ =
        .ok (.Object [("name", .Str "alice"),
          ("tags", .Object [("", .Array [.Str "rust", .Str "db"])])]) := by
  exact ⟨by decide, by decide, rfl, rfl⟩

/-- C2: the spec's scenario inserts `users.u1.profile.bio`,
`users.u2.bio`, `posts.p1.bio` and expects `find_by_pattern` on
`users.**.bio` to return exactly the first two stored matching paths.
The core wildcard index's multi-level tree stores a *single* path per
suffix key (`index_for_multi_wildcards` overwrites, core
wildcard_index.rs line 143), so after the three adds the suffix key
`bio` holds only `posts.p1.bio`, and the query returns just that path —
both stored matching paths are missing and a path outside `users` is
reported (it passes the `matches` filter because of the C1 bug).
`remove_path` (lines 192-244) additionally deletes whole posting sets
from the single-level tree, losing other stored paths; the parallel
top-level `wildcard_index.rs` keeps per-key path *sets* in both trees,
showing the intended behavior. -/
theorem c2_wildcard_index_drops_paths :
    (do
      let s1 ← MemoryStore.new.set exU1ProfileBio (.Str "dev")
      let s2 ← s1.set exU2Bio (.Str "ds")
      s2.set exP1Bio (.Str "x")) =
        .ok ⟨[(exU1ProfileBio, .Str "dev"), (exU2Bio, .Str "ds"),
          (exP1Bio, .Str "x")]⟩ ∧
      CoreWildcardIndex.findByPattern
          (CoreWildcardIndex.ofPaths [exU1ProfileBio, exU2Bio, exP1Bio])
          exPatBio = [exP1Bio] ∧
      Path.pmatches exU1ProfileBio exPatBio = true ∧
      Path.pmatches exU2Bio exPatBio = true ∧
      ¬(exU1ProfileBio ∈ CoreWildcardIndex.findByPattern
          (CoreWildcardIndex.ofPaths [exU1ProfileBio, exU2Bio, exP1Bio])
          exPatBio) := by
  decide

/-- C3: the spec claims prefix listing is exact, and in particular that
a stored path such as `users2.x` is never reported under the prefix
`users`.  The scan range of `find_by_prefix` is
`[key(P), key(P) ++ ":\xFF")` in byte order, and `users2:x` falls
inside it (byte `'2' = 0x32` sorts before `':' = 0x3A`), so `users2.x`
*is* reported under `users` even though it does not `starts_with` it. -/
theorem c3_listing_counterexample :
    exUsers2X ∈ PrefixIndex.findByPre
        (PrefixIndex.ofPaths [exU1Name, exUsers2X]) ⟨[.Named "users"]⟩ ∧
      exUsers2X.startsWith ⟨[.Named "users"]⟩ = false := by decide

/-- C3 amended: prefix listing is complete but not exact.  Every
indexed path `Q` with `Q.starts_with(P)` is returned for every
non-empty wildcard-free prefix `P` (the stored paths whose keys merely
extend `key(P)` in byte order, such as `users2.x` under `users`, are
returned as well); the spec's concrete scenario is exact: with
`users.u1.name`, `users.u1.email`, `users.u2.name` indexed, the listing
of `users.u1` is exactly those first two paths. -/
theorem c3_listing_complete (tree : PrefixIndex.Tree) (P Q : Path)
    (hmem : (PrefixIndex.createIndexKey Q, Q) ∈ tree)
    (hsw : Q.startsWith P = true) (hwf : P.hasWildcards = false)
    (hP : P.segments ≠ []) :
    Q ∈ PrefixIndex.findByPre tree P ∧
      PrefixIndex.findByPre (PrefixIndex.ofPaths [exU1Name, exU1Email, exU2Name])
          ⟨[.Named "users", .Named "u1"]⟩ = [exU1Name, exU1Email] := by
  refine ⟨?_, by decide⟩
  obtain ⟨h1, h2⟩ := createIndexKey_in_range P Q hsw hwf hP
  exact mem_findByPre_of_range tree P Q hmem h1 h2

/-- C3 witness: completeness at a one-entry index. -/
theorem c3_listing_complete_witness :
    exU1Name ∈ PrefixIndex.findByPre (PrefixIndex.ofPaths [exU1Name])
      ⟨[.Named "users"]⟩ :=
  (c3_listing_complete (PrefixIndex.ofPaths [exU1Name]) ⟨[.Named "users"]⟩
    exU1Name (by decide) (by decide) (by decide) (by decide)).1

/-- C7: every store operation among `set`/`get`/`delete`/`exists`
rejects the empty path with `InvalidOperation` (the mutating operation
then leaves the data untouched, which the model renders by returning
only the error); with a non-empty path, `set` always succeeds and
upserts (a following `get` returns the new value), while `get` and
`delete` of an absent path fail with `NotFound` (`delete` again leaving
the data untouched).  Stated for both the in-memory store
(storage/memory.rs) and the sled-backed store
(persistent_store.rs / storage/persistent.rs, identical at this
level). -/
theorem c7_store_empty_path_and_upsert (m : MemoryStore) (ps : PStore)
    (p : Path) (v : Value) :
    (p.segments = [] →
      m.set p v = .error (.InvalidOperation "Cannot set value at empty path") ∧
      m.get p = .error (.InvalidOperation "Cannot get value at empty path") ∧
      m.delete p = .error (.InvalidOperation "Cannot delete value at empty path") ∧
      m.existsP p = .error (.InvalidOperation "Cannot check empty path") ∧
      ps.set p v = .error (.InvalidOperation "Cannot set value at empty path") ∧
      ps.get p = .error (.InvalidOperation "Cannot get value at empty path") ∧
      ps.delete p = .error (.InvalidOperation "Cannot delete value at empty path") ∧
      ps.existsP p = .error (.InvalidOperation "Cannot check empty path")) ∧
    (p.segments ≠ [] →
      (m.set p v = .ok ⟨alInsert m.data p v⟩ ∧
        MemoryStore.get ⟨alInsert m.data p v⟩ p = .ok v) ∧
      (ps.set p v = .ok ⟨alInsert ps.db p v, ps.widx.addPath p⟩ ∧
        PStore.get ⟨alInsert ps.db p v, ps.widx.addPath p⟩ p = .ok v) ∧
      (alFind m.data p = none →
        m.get p = .error (.NotFound p) ∧ m.delete p = .error (.NotFound p)) ∧
      (alFind ps.db p = none →
        ps.get p = .error (.NotFound p) ∧ ps.delete p = .error (.NotFound p))) := by
  constructor
  · intro hempty
    have hie : p.isEmptyP = true := by simp [Path.isEmptyP, hempty]
    refine ⟨?_, ?_, ?_, ?_, ?_, ?_, ?_, ?_⟩ <;>
      simp [MemoryStore.set, MemoryStore.get, MemoryStore.delete,
        MemoryStore.existsP, PStore.set, PStore.get, PStore.delete,
        PStore.existsP, hie]
  · intro hne
    have hie : ¬(p.isEmptyP = true) := by
      simp [Path.isEmptyP, List.isEmpty_iff, hne]
    refine ⟨⟨?_, ?_⟩, ⟨?_, ?_⟩, fun hfind => ⟨?_, ?_⟩, fun hfind => ⟨?_, ?_⟩⟩
    · simp [MemoryStore.set, hie]
    · simp [MemoryStore.get, hie, alFind_alInsert_self]
    · simp [PStore.set, hie]
    · simp [PStore.get, hie, alFind_alInsert_self]
    · simp [MemoryStore.get, hie, hfind]
    · simp [MemoryStore.delete, hie, hfind]
    · simp [PStore.get, hie, hfind]
    · simp [PStore.delete, hie, hfind]

/-- C7 witness: the empty path is rejected on the fresh store, a set at
`a` is readable, and `get`/`delete` of the absent path `a` fail with
`NotFound`. -/
theorem c7_store_empty_path_and_upsert_witness :
    MemoryStore.new.set ⟨[]⟩ .Null =
        .error (.InvalidOperation "Cannot set value at empty path") ∧
      MemoryStore.get ⟨alInsert MemoryStore.new.data ⟨[.Named "a"]⟩ .Null⟩
        ⟨[.Named "a"]⟩ = .ok .Null ∧
      MemoryStore.new.get ⟨[.Named "a"]⟩ = .error (.NotFound ⟨[.Named "a"]⟩) :=
  ⟨((c7_store_empty_path_and_upsert MemoryStore.new PStore.empty ⟨[]⟩ .Null).1
      rfl).1,
    (((c7_store_empty_path_and_upsert MemoryStore.new PStore.empty
      ⟨[.Named "a"]⟩ .Null).2 (by decide)).1).2,
    ((((c7_store_empty_path_and_upsert MemoryStore.new PStore.empty
      ⟨[.Named "a"]⟩ .Null).2 (by decide)).2.2.1) rfl).1⟩

/-- C9: submitting an `Add` or `Remove` increments
`pending_operations` by one while `Flush`/`Shutdown` submissions leave
the counters alone; when the worker dequeues an `Add` or `Remove` it
applies it to every registered index in registration order (each
index's new state depends only on its own application, so failures do
not stop the loop), and it bumps `total_operations` plus the matching
`total_adds`/`total_removes` and decrements `pending_operations`
(saturating, which is `Nat` subtraction) exactly when at least one
index succeeded — when every index fails, the counters are left
unchanged. -/
theorem c9_worker_counters (σ : Type) (ops : IdxOps σ) (s : WorkerState σ)
    (p : Path) (rest : List IndexOp) :
    ((submitOperation (.Add p) s).stats.pendingOperations =
        s.stats.pendingOperations + 1 ∧
      (submitOperation (.Remove p) s).stats.pendingOperations =
        s.stats.pendingOperations + 1 ∧
      (submitOperation .Flush s).stats = s.stats ∧
      (submitOperation .Shutdown s).stats = s.stats) ∧
    (s.queue = .Add p :: rest →
      processOne ops s = some
        { queue := rest,
          indexes := s.indexes.map fun i =>
            match ops.addPath p i with
            | .ok j => j
            | .error _ => i,
          stats := if s.indexes.any fun i => (ops.addPath p i).isOk then
              { totalOperations := s.stats.totalOperations + 1,
                totalAdds := s.stats.totalAdds + 1,
                totalRemoves := s.stats.totalRemoves,
                pendingOperations := s.stats.pendingOperations - 1 }
            else s.stats }) ∧
    (s.queue = .Remove p :: rest →
      processOne ops s = some
        { queue := rest,
          indexes := s.indexes.map fun i =>
            match ops.removePath p i with
            | .ok j => j
            | .error _ => i,
          stats := if s.indexes.any fun i => (ops.removePath p i).isOk then
              { totalOperations := s.stats.totalOperations + 1,
                totalAdds := s.stats.totalAdds,
                totalRemoves := s.stats.totalRemoves + 1,
                pendingOperations := s.stats.pendingOperations - 1 }
            else s.stats }) := by
  refine ⟨⟨rfl, rfl, rfl, rfl⟩, fun hq => ?_, fun hq => ?_⟩ <;>
    simp [processOne, hq, applyAll_eq]

/-- C9 witness: one queued `Add` on two boolean indexes whose adds both
succeed and whose removes fail. -/
theorem c9_worker_counters_witness :
    (submitOperation (.Add ⟨[.Named "a"]⟩) exWorker).stats.pendingOperations =
        exWorker.stats.pendingOperations + 1 ∧
      processOne exIdxOps exWorker = some ⟨[], ⟨1, 1, 0, 0⟩, [false, true]⟩ := by
  have h := c9_worker_counters Bool exIdxOps exWorker ⟨[.Named "a"]⟩ []
  refine ⟨h.1.1, ?_⟩
  rw [h.2.1 rfl]
  decide

/-- C6: the filtered expression is refuted as stated.  Its conditions
are evaluated as the wildcard query `base.*.X` and intersected, and the
surviving entities are reconstructed and serialized — but `<id>` is not
the segment matched by the `*`: `evaluate_filtered_expression` always
takes `path_segments[1]`, the *second* segment (evaluator.rs line 111).
With the two-segment base `a.b` and the endpoint `a.b.c1.active=true`,
the path `a.b.c1.active` matches `a.b.*.active` with the `*` binding
`c1`, yet the id collected is `b`; reconstruction at `a.b.b` finds
nothing and the query returns the empty array even though the entity
`a.b.c1` exists and satisfies the condition. -/
theorem c6_filter_uses_second_segment :
    (exStoreAB >>= fun st => allMatchingIds st ⟨[.Named "a", .Named "b"]⟩
        [(["active"], .Equal, .Boolean true)]) = .ok ["b"] ∧
      (exStoreAB >>= fun st => evaluateFilteredExpression st
        (.EPath ⟨[.Named "a", .Named "b"]⟩) exWhereActive) = .ok (.Str "[]") ∧
      (exStoreAB >>= fun st => reconstructEntityP st
        ⟨[.Named "a", .Named "b", .Named "c1"]⟩) =
        .ok (.Object [("active", .Boolean true), ("name", .Str "x")]) ∧
      Path.pmatches ⟨[.Named "a", .Named "b", .Named "c1", .Named "active"]⟩
        ⟨[.Named "a", .Named "b", .SingleWildcard, .Named "active"]⟩ = true := by
  exact ⟨rfl, rfl, rfl, by decide⟩

/-- C6 amended: each `their.X <op> literal` condition (or its mirrored
form) is evaluated as the wildcard query `base.*.X`; the id collected
from each passing endpoint is the *second* segment of its path (which
is the segment matched by the `*` exactly when the base has one
segment); the id sets are intersected and each surviving entity is
reconstructed at `base.<id>`, the result being the serialized entity
array.  The spec's one-segment-base example behaves as described: the
query `{ return users where their.active == true }` returns the
one-entity array of the `u1` object. -/
theorem c6_filter_amended (store : PStore) (basePath : Path)
    (cond : List String × ComparisonOperator × Value) (sp : Path)
    (hsp : Path.fromStr (basePath.toStr ++ ".*." ++ joinSep "." cond.1) = .ok sp)
    (ids : List String)
    (hids : conditionIds store basePath cond = .ok ids) (a : String) :
    (a ∈ ids ↔
      a ∈ (store.query sp).filterMap (condFilter cond.2.1 cond.2.2)) ∧
      (exStoreUsers >>= fun st => evaluateFilteredExpression st
        (.EPath ⟨[.Named "users"]⟩) exWhereActive) =
        .ok (.Str ("[\"" ++
          Entity.toJson (.Object [("active", .Boolean true),
            ("name", .Str "alice")]) ++ "\"]")) :=
  ⟨conditionIds_mem store basePath cond sp hsp ids hids a, rfl⟩

/-- C6 amended witness: the two-segment-base store collects the id `b`
as the second path segment of `a.b.c1.active`. -/
theorem c6_filter_amended_witness :
    conditionIds exPSAB ⟨[.Named "a", .Named "b"]⟩
        (["active"], .Equal, .Boolean true) = .ok ["b"] ∧
      ("b" ∈ ["b"] ↔ "b" ∈ (exPSAB.query
        ⟨[.Named "a", .Named "b", .SingleWildcard, .Named "active"]⟩).filterMap
          (condFilter .Equal (.Boolean true))) :=
  ⟨rfl,
    (c6_filter_amended exPSAB ⟨[.Named "a", .Named "b"]⟩
      (["active"], .Equal, .Boolean true)
      ⟨[.Named "a", .Named "b", .SingleWildcard, .Named "active"]⟩ (by decide)
      ["b"] rfl "b").1⟩

end Hyperion
